import Mathlib

/-!
# NachOS address spaces (`code/userprog/addrspace.cc`)

A shallow embedding of `AddrSpace` (constructor, destructor, `Load`,
`LoadSegment`, `FindSwapPage`, `SwapHeader`, `Execute`, `InitRegisters`,
`SaveState`, `RestoreState`) and the properties of the address-space
specification that can be settled on it.

Modelling conventions.

* The constants `PageSize`, `NumPhysPages`, `UserStackSize` and `NOFFMAGIC`
  come from headers that are not among the sources; they are the fields of
  `Config`.
* `kernel->machine->usedPhyPage` (the array `LoadSegment` scans and marks) and
  the static `AddrSpace::usedPhyPage` (the array the destructor writes) are
  two different objects and are two different fields of the state.
* An `ASSERT` that fails ends the run: `Outcome.abort`, carrying the state at
  that point.  Indexing an array outside its bounds and dereferencing a null
  pointer are undefined behaviour: `Outcome.undefined`.
* The 32-bit header words are natural numbers below `2^32`; where the code
  uses one as an `int` it is read through `toInt32`.
* File reads and sector writes are recorded, with their arguments, in a trace;
  the contents of `mainMemory` and of the swap device are not modelled.
* The loop variable `i` of `LoadSegment` is an integer without bound: a segment
  so long that `i += PageSize` would leave the range of `int` is outside the
  model.
* `numPages` is not initialised by the constructor; the value it happens to
  have is an argument of `AddrSpace.ctor`.
* `delete pageTable` sets the field `pageTableDeleted` of the address space;
  the destructor of an address space whose table is deleted is undefined
  behaviour.  `new TranslationEntry[..]` in the constructor and in `Load`
  gives a table that is not deleted.
* The register numbers and the register count are the fields of
  `RegisterLayout`; a register holds an `int`.  The page-table pointer of the
  machine is modelled by the table it points to.
* `kernel->machine->Run()` does not return: `ExecuteOutcome.running`.
-/

namespace NachOS

/-! ## Constants -/

/-- Compile-time constants of `machine.h`, `addrspace.h` and `noff.h`. -/
structure Config where
  PageSize : Nat
  NumPhysPages : Nat
  UserStackSize : Nat
  NOFFMAGIC : Nat
  hostIsBigEndian : Bool
  PageSize_pos : 0 < PageSize

/-- The values of the stock NachOS headers. -/
def stockConfig : Config :=
  { PageSize := 128, NumPhysPages := 32, UserStackSize := 1024,
    NOFFMAGIC := 0xbadfad, hostIsBigEndian := false, PageSize_pos := by decide }

/-! ## Machine integers -/

/-- Conversion of an integer to `unsigned int`. -/
def toUInt32 (x : Int) : Nat := (x % 4294967296).toNat

/-- Reading of a 32-bit word as an `int` (two's complement). -/
def toInt32 (w : Nat) : Int :=
  if w % 4294967296 < 2147483648 then ((w % 4294967296 : Nat) : Int)
  else ((w % 4294967296 : Nat) : Int) - 4294967296

/-- The `min` macro applied to an `int` and an `unsigned`: the comparison and
the result are `unsigned`, and the result is stored in an `int`. -/
def minIntUnsigned (a : Int) (b : Nat) : Int :=
  toInt32 (if toUInt32 a < b then toUInt32 a else b)

/-- The `divRoundUp` macro on `unsigned` operands. -/
def divRoundUp (n s : Nat) : Nat := n / s + (if n % s > 0 then 1 else 0)

/-! ## Data -/

structure TranslationEntry where
  virtualPage : Int
  physicalPage : Int
  valid : Bool
  use : Bool
  dirty : Bool
  readOnly : Bool
deriving DecidableEq

structure Segment where
  virtualAddr : Nat
  inFileAddr : Nat
  size : Nat
deriving DecidableEq

structure NoffHeader where
  noffMagic : Nat
  code : Segment
  initData : Segment
  uninitData : Segment
deriving DecidableEq

/-- Every field of the segment descriptor is a 32-bit word. -/
def Segment.WF (s : Segment) : Prop :=
  s.virtualAddr < 4294967296 ∧ s.inFileAddr < 4294967296 ∧ s.size < 4294967296

/-- Every field of the header is a 32-bit word. -/
def NoffHeader.WF (h : NoffHeader) : Prop :=
  h.noffMagic < 4294967296 ∧ h.code.WF ∧ h.initData.WF ∧ h.uninitData.WF

instance (s : Segment) : Decidable s.WF := by
  unfold Segment.WF
  infer_instance

instance (h : NoffHeader) : Decidable h.WF := by
  unfold NoffHeader.WF
  infer_instance

/-- An open executable: the header found at offset 0. -/
structure OpenFile where
  noffH : NoffHeader
deriving DecidableEq

/-- Destination of a `ReadAt`. -/
inductive ReadTarget where
  | mainMemory (addr : Int)
  | buffer
deriving DecidableEq

/-- Observable calls made on the collaborators. -/
inductive Event where
  | readAt (into : ReadTarget) (numBytes : Int) (position : Int)
  | findSwapPage
  | writeSector (sector : Int)
deriving DecidableEq

structure Machine where
  usedPhyPage : List Bool
  usedvirPage : List Bool
  pageTable : List TranslationEntry
  pageTableSize : Nat
  registers : List Int
deriving DecidableEq

/-- The global state reached through `kernel`, together with the static
member `AddrSpace::usedPhyPage`. -/
structure State where
  machine : Machine
  staticUsedPhyPage : List Bool
  virtualMemoryDisk : Bool
  openFiles : Nat
  trace : List Event
deriving DecidableEq

/-- An address-space object.  `pageTableDeleted` records that the array
`pageTable` points to has been passed to `delete`, as the destructor does. -/
structure AddrSpace where
  pageTable : List TranslationEntry
  numPages : Nat
  pageTableDeleted : Bool := false
deriving DecidableEq

/-- How a run of a routine ends. -/
inductive Outcome (α : Type) where
  | ok (a : α)
  | abort (st : State)
  | undefined
deriving DecidableEq

/-- The value a run ended with, when it ran to completion. -/
def Outcome.result? {α : Type} : Outcome α → Option α
  | .ok a => some a
  | .abort _ => none
  | .undefined => none

/-- The value a run ended with, or `d` when it did not run to completion. -/
def Outcome.resultD {α : Type} (o : Outcome α) (d : α) : α :=
  match o with
  | .ok a => a
  | .abort _ => d
  | .undefined => d

/-- Both arrays of the machine and the static array have `NumPhysPages` entries. -/
def State.WF (cfg : Config) (st : State) : Prop :=
  st.machine.usedPhyPage.length = cfg.NumPhysPages ∧
  st.machine.usedvirPage.length = cfg.NumPhysPages ∧
  st.staticUsedPhyPage.length = cfg.NumPhysPages

/-! ## SwapHeader -/

/-- Modelled from the spec: `WordToHost` is not among the sources.  The spec
describes it as a byte-order swap of a 32-bit word that is its own inverse;
on a host whose byte order is that of the file it leaves the word as it is. -/
def WordToHost (cfg : Config) (word : Nat) : Nat :=
  if cfg.hostIsBigEndian then
    (word % 256) * 16777216 + (word / 256 % 256) * 65536
      + (word / 65536 % 256) * 256 + (word / 16777216 % 256)
  else word % 4294967296

def SwapSegment (cfg : Config) (s : Segment) : Segment :=
  { size := WordToHost cfg s.size,
    virtualAddr := WordToHost cfg s.virtualAddr,
    inFileAddr := WordToHost cfg s.inFileAddr }

def SwapHeader (cfg : Config) (noffH : NoffHeader) : NoffHeader :=
  { noffMagic := WordToHost cfg noffH.noffMagic,
    code := SwapSegment cfg noffH.code,
    initData := SwapSegment cfg noffH.initData,
    uninitData := SwapSegment cfg noffH.uninitData }

/-! ## Constructor and destructor -/

/-- Entry `i` of the identity map built by the constructor. -/
def identityEntry (i : Nat) : TranslationEntry :=
  { virtualPage := i, physicalPage := i, valid := true,
    use := false, dirty := false, readOnly := false }

/-- The constructor `AddrSpace::AddrSpace`.  It does not initialise `numPages`;
the indeterminate value is the argument. -/
def AddrSpace.ctor (cfg : Config) (numPages : Nat) : AddrSpace :=
  { pageTable := (List.range cfg.NumPhysPages).map identityEntry,
    numPages := numPages }

/-- The loop of the destructor from index `i`, with `remaining` iterations
left, on the static array `AddrSpace::usedPhyPage`. -/
def destructorLoop (cfg : Config) (pageTable : List TranslationEntry) :
    (remaining : Nat) → (i : Nat) → List Bool → Option (List Bool)
  | 0, _, used => some used
  | remaining + 1, i, used =>
    match pageTable[i]? with
    | none => none
    | some e =>
      if 0 ≤ e.physicalPage ∧ e.physicalPage < cfg.NumPhysPages then
        destructorLoop cfg pageTable remaining (i + 1) (used.set e.physicalPage.toNat false)
      else none

/-- The destructor `AddrSpace::~AddrSpace`: the loop over the page table, then
`delete pageTable`.  Run on an object whose page table has been deleted, it
reads the freed array and deletes it a second time: undefined behaviour. -/
def AddrSpace.dtor (cfg : Config) (st : State) (space : AddrSpace) :
    Outcome (State × AddrSpace) :=
  if space.pageTableDeleted = true then .undefined
  else
    match destructorLoop cfg space.pageTable space.numPages 0 st.staticUsedPhyPage with
    | none => .undefined
    | some used =>
      .ok ({ st with staticUsedPhyPage := used }, { space with pageTableDeleted := true })

/-! ## LoadSegment -/

/-- First index `j` in `[j, j + remaining)` whose flag is clear. -/
def firstClear (used : List Bool) : (remaining : Nat) → (j : Nat) → Option Nat
  | 0, _ => none
  | remaining + 1, j =>
    if used[j]? = some false then some j else firstClear used remaining (j + 1)

/-- The routine `AddrSpace::FindSwapPage`; `none` stands for `ASSERT(FALSE)`. -/
def FindSwapPage (cfg : Config) (st : State) : Option Nat :=
  firstClear st.machine.usedvirPage cfg.NumPhysPages 0

def State.log (st : State) (e : Event) : State :=
  { st with trace := st.trace ++ [e] }

def State.setUsedPhyPage (st : State) (j : Nat) : State :=
  { st with machine := { st.machine with usedPhyPage := st.machine.usedPhyPage.set j true } }

def State.setUsedvirPage (st : State) (j : Nat) : State :=
  { st with machine := { st.machine with usedvirPage := st.machine.usedvirPage.set j true } }

/-- One pass through the body of the loop of `LoadSegment`, for loop variable
`i` and current `pageOffset`. -/
def LoadSegmentBody (cfg : Config) (inFileAddr segmentSize startPage : Int)
    (i : Int) (pageOffset : Int) (st : State) (pageTable : List TranslationEntry) :
    Outcome (State × List TranslationEntry) :=
  let vpn : Int := startPage + Int.tdiv i cfg.PageSize
  let copySize : Int :=
    minIntUnsigned (cfg.PageSize - pageOffset) (toUInt32 (segmentSize - i))
  match firstClear st.machine.usedPhyPage cfg.NumPhysPages 0 with
  | some freePage =>
    let st1 := st.setUsedPhyPage freePage
    if 0 ≤ vpn then
      match pageTable[vpn.toNat]? with
      | none => .undefined
      | some e =>
        .ok (st1.log
              (.readAt (.mainMemory (freePage * cfg.PageSize + pageOffset)) copySize
                (inFileAddr + i)),
            pageTable.set vpn.toNat { e with physicalPage := freePage, valid := true })
    else .undefined
  | none =>
    let st1 := (st.log (.readAt .buffer copySize (inFileAddr + i))).log .findSwapPage
    match FindSwapPage cfg st1 with
    | none => .abort st1
    | some swapPage =>
      let st2 := st1.setUsedvirPage swapPage
      if st2.virtualMemoryDisk = false then .undefined
      else
        if 0 ≤ vpn then
          match pageTable[vpn.toNat]? with
          | none => .undefined
          | some e =>
            .ok (st2.log (.writeSector swapPage),
              pageTable.set vpn.toNat { e with virtualPage := swapPage, valid := false })
        else .undefined

/-- The loop of `LoadSegment` from loop variable `i` and current `pageOffset`.
`fuel` bounds the number of iterations; `segmentSize.toNat` is enough, since
`i` grows by `PageSize > 0` at each pass (`LoadSegmentLoop_fuel`). -/
def LoadSegmentLoop (cfg : Config) (inFileAddr segmentSize startPage : Int) :
    (fuel : Nat) → (i : Int) → (pageOffset : Int) → State → List TranslationEntry →
      Outcome (State × List TranslationEntry)
  | 0, _, _, st, pageTable => .ok (st, pageTable)
  | fuel + 1, i, pageOffset, st, pageTable =>
    if i < segmentSize then
      match LoadSegmentBody cfg inFileAddr segmentSize startPage i pageOffset st pageTable with
      | .ok (st1, pageTable1) =>
        LoadSegmentLoop cfg inFileAddr segmentSize startPage fuel (i + cfg.PageSize) 0
          st1 pageTable1
      | .abort s => .abort s
      | .undefined => .undefined
    else .ok (st, pageTable)

/-- The routine `AddrSpace::LoadSegment`. -/
def LoadSegment (cfg : Config) (inFileAddr segmentSize virtualAddr : Int)
    (st : State) (pageTable : List TranslationEntry) :
    Outcome (State × List TranslationEntry) :=
  let startPage := Int.tdiv virtualAddr cfg.PageSize
  let pageOffset := Int.tmod virtualAddr cfg.PageSize
  LoadSegmentLoop cfg inFileAddr segmentSize startPage segmentSize.toNat 0 pageOffset st pageTable

/-! ## Load -/

/-- Entry `i` of the page table as `Load` initialises it. -/
def unmappedEntry (i : Nat) : TranslationEntry :=
  { virtualPage := i, physicalPage := -1, valid := false,
    use := false, dirty := false, readOnly := false }

/-- The header after the byte-order repair at the start of `Load`. -/
def repairHeader (cfg : Config) (noffH : NoffHeader) : NoffHeader :=
  if noffH.noffMagic ≠ cfg.NOFFMAGIC ∧ WordToHost cfg noffH.noffMagic = cfg.NOFFMAGIC then
    SwapHeader cfg noffH
  else noffH

/-- The value of `numPages` computed by `Load` from a header: the sum is taken
in 32-bit arithmetic and stored in an `unsigned int`. -/
def computeNumPages (cfg : Config) (noffH : NoffHeader) : Nat :=
  divRoundUp
    ((noffH.code.size + noffH.initData.size + noffH.uninitData.size + cfg.UserStackSize)
      % 4294967296)
    cfg.PageSize

/-- The two calls of `LoadSegment` made by `Load`. -/
def loadSegments (cfg : Config) (noffH : NoffHeader) (st : State)
    (pageTable : List TranslationEntry) : Outcome (State × List TranslationEntry) :=
  let afterCode :=
    if toInt32 noffH.code.size > 0 then
      LoadSegment cfg (toInt32 noffH.code.inFileAddr) (toInt32 noffH.code.size)
        (toInt32 noffH.code.virtualAddr) st pageTable
    else .ok (st, pageTable)
  match afterCode with
  | .ok (st1, pageTable1) =>
    if toInt32 noffH.initData.size > 0 then
      LoadSegment cfg (toInt32 noffH.initData.inFileAddr) (toInt32 noffH.initData.size)
        (toInt32 noffH.initData.virtualAddr) st1 pageTable1
    else .ok (st1, pageTable1)
  | .abort s => .abort s
  | .undefined => .undefined

/-- The routine `AddrSpace::Load`.  `fileSystem` is `kernel->fileSystem->Open`.
The result is the returned flag with the state and the address space. -/
def Load (cfg : Config) (fileSystem : String → Option OpenFile) (fileName : String)
    (st : State) (space : AddrSpace) : Outcome (Bool × State × AddrSpace) :=
  match fileSystem fileName with
  | none => .ok (false, st, space)
  | some executable =>
    let st0 := { st with openFiles := st.openFiles + 1 }
    let noffH := repairHeader cfg executable.noffH
    if noffH.noffMagic ≠ cfg.NOFFMAGIC then .abort st0
    else
      let numPages := computeNumPages cfg noffH
      if numPages > cfg.NumPhysPages ∧ st0.virtualMemoryDisk = false then
        .ok (false, { st0 with openFiles := st0.openFiles - 1 },
          { space with numPages := numPages })
      else
        let pageTable := (List.range numPages).map unmappedEntry
        match loadSegments cfg noffH st0 pageTable with
        | .ok (st1, pageTable1) =>
          .ok (true, { st1 with openFiles := st1.openFiles - 1 },
            { pageTable := pageTable1, numPages := numPages })
        | .abort s => .abort s
        | .undefined => .undefined

/-! ## Quantities used in the statements -/

/-- Number of clear flags among the indices `[j, j + remaining)`. -/
def clearCount (used : List Bool) : (remaining : Nat) → (j : Nat) → Nat
  | 0, _ => 0
  | remaining + 1, j =>
    (if used[j]? = some false then 1 else 0) + clearCount used remaining (j + 1)

/-- Number of free entries of a bitmap of `NumPhysPages` flags. -/
def freeCount (cfg : Config) (used : List Bool) : Nat :=
  clearCount used cfg.NumPhysPages 0

/-- The page count in the words of the spec: the ceiling of the quotient of the
integer sum of the three segment sizes and the stack size by the page size. -/
def requiredPages (header : NoffHeader) (stackSize pageSize : Nat) : Nat :=
  ⌈(((header.code.size + header.initData.size + header.uninitData.size + stackSize : Nat) : ℚ))
      / (pageSize : ℚ)⌉₊

/-! ## Concrete inputs -/

/-- A host whose byte order differs from that of the file. -/
def bigEndianConfig : Config :=
  { stockConfig with hostIsBigEndian := true }

/-- The constants of the sizing example of the spec. -/
def sizingConfig : Config :=
  { PageSize := 4096, NumPhysPages := 32, UserStackSize := 4096,
    NOFFMAGIC := 0xbadfad, hostIsBigEndian := false, PageSize_pos := by decide }

def emptySegment : Segment := { virtualAddr := 0, inFileAddr := 0, size := 0 }

/-- A header with a code segment of two pages at address 0. -/
def twoPageHeader : NoffHeader :=
  { noffMagic := 0xbadfad,
    code := { virtualAddr := 0, inFileAddr := 40, size := 256 },
    initData := emptySegment, uninitData := emptySegment }

/-- The header of the sizing example of the spec. -/
def sizingHeader : NoffHeader :=
  { noffMagic := 0xbadfad, code := emptySegment,
    initData := { virtualAddr := 0, inFileAddr := 40, size := 4096 },
    uninitData := emptySegment }

/-- A header with a valid magic whose sizes add up to more than `2^32`. -/
def overflowHeader : NoffHeader :=
  { noffMagic := 0xbadfad,
    code := { virtualAddr := 0, inFileAddr := 40, size := 2147483647 },
    initData := { virtualAddr := 0, inFileAddr := 40, size := 2147483647 },
    uninitData := emptySegment }

/-- A header whose magic is wrong in either byte order. -/
def badMagicHeader : NoffHeader :=
  { twoPageHeader with noffMagic := 0 }

/-- A state in which every frame and every swap slot is free. -/
def freshState (cfg : Config) (disk : Bool) : State :=
  { machine :=
      { usedPhyPage := List.replicate cfg.NumPhysPages false,
        usedvirPage := List.replicate cfg.NumPhysPages false,
        pageTable := [], pageTableSize := 0, registers := [] },
    staticUsedPhyPage := List.replicate cfg.NumPhysPages false,
    virtualMemoryDisk := disk, openFiles := 0, trace := [] }

/-- A state in which every frame and every swap slot is taken. -/
def fullState (cfg : Config) : State :=
  { machine :=
      { usedPhyPage := List.replicate cfg.NumPhysPages true,
        usedvirPage := List.replicate cfg.NumPhysPages true,
        pageTable := [], pageTableSize := 0, registers := [] },
    staticUsedPhyPage := List.replicate cfg.NumPhysPages false,
    virtualMemoryDisk := true, openFiles := 0, trace := [] }

/-- A state in which exactly the frames listed in `taken` are marked in the
bitmap of the machine; every swap slot is free and there is no swap device. -/
def framesTaken (cfg : Config) (taken : List Nat) : State :=
  { freshState cfg false with
    machine :=
      { (freshState cfg false).machine with
        usedPhyPage := (List.range cfg.NumPhysPages).map (fun j => decide (j ∈ taken)) } }

/-- The frames held by the valid entries of a page table. -/
def ownedFrames (pageTable : List TranslationEntry) : List Int :=
  (pageTable.filter (fun e => e.valid)).map (fun e => e.physicalPage)

/-- The file ranges `[position, position + numBytes)` of the reads of a trace. -/
def readRanges (trace : List Event) : List (Int × Int) :=
  trace.filterMap (fun e =>
    match e with
    | .readAt _ numBytes position => some (position, position + numBytes)
    | _ => none)

/-- Whether the byte at file offset `b` lies in one of the ranges read. -/
def byteRead (trace : List Event) (b : Int) : Bool :=
  (readRanges trace).any (fun r => decide (r.1 ≤ b) && decide (b < r.2))

/-- The flag of index `p` is set in a bitmap. -/
def marked (used : List Bool) (p : Int) : Prop :=
  0 ≤ p ∧ used[p.toNat]? = some true

instance (used : List Bool) (p : Int) : Decidable (marked used p) := by
  unfold marked
  infer_instance

/-- Invariant of `LoadSegment` for frame ownership, relative to the bitmap
`used0` at the start of `Load`: the bitmap only gains bits, every valid entry
holds a frame that is set now and was clear in `used0`, and two valid entries
hold different frames. -/
def OwnsFresh (used0 : List Bool) (st : State) (pageTable : List TranslationEntry) : Prop :=
  st.machine.usedPhyPage.length = used0.length ∧
  (∀ f : Nat, used0[f]? = some true → st.machine.usedPhyPage[f]? = some true) ∧
  (∀ (i : Nat) (e : TranslationEntry), pageTable[i]? = some e → e.valid = true →
    marked st.machine.usedPhyPage e.physicalPage ∧ used0[e.physicalPage.toNat]? = some false) ∧
  (∀ (i j : Nat) (e e1 : TranslationEntry), pageTable[i]? = some e → pageTable[j]? = some e1 →
    e.valid = true → e1.valid = true → e.physicalPage = e1.physicalPage → i = j)

/-- Another live address space, holding frames 0 and 1. -/
def otherSpace : AddrSpace :=
  { pageTable := [identityEntry 0, identityEntry 1], numPages := 2 }

/-- The result of loading the two-page program while frames 0, 1, 3, 4 are taken. -/
def loadedTwoPages : Bool × State × AddrSpace :=
  (Load stockConfig (fun _ => some ⟨twoPageHeader⟩) "prog"
    (framesTaken stockConfig [0, 1, 3, 4]) (AddrSpace.ctor stockConfig 0)).resultD
      (false, framesTaken stockConfig [0, 1, 3, 4], AddrSpace.ctor stockConfig 0)

/-- The entry was placed in swap: it is not valid, and its `virtualPage` is a
swap slot that is clear in `usedvir0`, set in `usedvir1` and the sector of a
`WriteSector` among the events `written`. -/
def HoldsSlot (usedvir0 usedvir1 : List Bool) (written : List Event)
    (e : TranslationEntry) : Prop :=
  e.valid = false ∧ 0 ≤ e.virtualPage ∧
    usedvir0[e.virtualPage.toNat]? = some false ∧
    usedvir1[e.virtualPage.toNat]? = some true ∧
    Event.writeSector e.virtualPage ∈ written

instance (usedvir0 usedvir1 : List Bool) (written : List Event) (e : TranslationEntry) :
    Decidable (HoldsSlot usedvir0 usedvir1 written e) := by
  unfold HoldsSlot; infer_instance

/-- Invariant of `LoadSegment` for the `virtualPage` field, relative to the state
`st0` in which the loading began: `usedvirPage` keeps its length and its set
bits; the trace has grown by some events `written`; an entry carries its own
index in `virtualPage`, unless it was placed in swap and holds a slot taken
since `st0`; such entries exist only once no frame is free; and no two of them
hold the same slot. -/
def SlotInv (cfg : Config) (st0 st : State) (pageTable : List TranslationEntry) : Prop :=
  st.machine.usedvirPage.length = st0.machine.usedvirPage.length ∧
  (∀ p : Nat, st0.machine.usedvirPage[p]? = some true →
    st.machine.usedvirPage[p]? = some true) ∧
  (∃ written : List Event, st.trace = st0.trace ++ written ∧
    ∀ (i : Nat) (e : TranslationEntry), pageTable[i]? = some e →
      e.virtualPage = (i : Int) ∨
        HoldsSlot st0.machine.usedvirPage st.machine.usedvirPage written e) ∧
  ((∃ (i : Nat) (e : TranslationEntry), pageTable[i]? = some e ∧ e.virtualPage ≠ (i : Int)) →
    firstClear st.machine.usedPhyPage cfg.NumPhysPages 0 = none) ∧
  (∀ (i j : Nat) (e e1 : TranslationEntry), pageTable[i]? = some e →
    pageTable[j]? = some e1 → e.virtualPage ≠ (i : Int) → e1.virtualPage ≠ (j : Int) →
    e.virtualPage = e1.virtualPage → i = j)

/-- A state with a swap device in which every frame is taken and, of the swap
slots, only slot 0 is taken. -/
def swapOnlyState (cfg : Config) : State :=
  { machine :=
      { usedPhyPage := List.replicate cfg.NumPhysPages true,
        usedvirPage := (List.range cfg.NumPhysPages).map (fun j => decide (j = 0)),
        pageTable := [], pageTableSize := 0, registers := [] },
    staticUsedPhyPage := List.replicate cfg.NumPhysPages false,
    virtualMemoryDisk := true, openFiles := 0, trace := [] }

/-- The result of loading the two-page program in `swapOnlyState`. -/
def loadedInSwap : Bool × State × AddrSpace :=
  (Load stockConfig (fun _ => some ⟨twoPageHeader⟩) "prog"
    (swapOnlyState stockConfig) (AddrSpace.ctor stockConfig 0)).resultD
      (false, swapOnlyState stockConfig, AddrSpace.ctor stockConfig 0)

/-- A state with a swap device in which frame 7 is the only free frame and
every swap slot is free. -/
def oneFrameState (cfg : Config) : State :=
  { machine :=
      { usedPhyPage := (List.range cfg.NumPhysPages).map (fun j => decide (j ≠ 7)),
        usedvirPage := List.replicate cfg.NumPhysPages false,
        pageTable := [], pageTableSize := 0, registers := [] },
    staticUsedPhyPage := List.replicate cfg.NumPhysPages false,
    virtualMemoryDisk := true, openFiles := 0, trace := [] }

/-- Number of set bits of a bitmap. -/
def setBits (used : List Bool) : Nat := used.count true

/-- Number of valid entries of a page table. -/
def validCount (pageTable : List TranslationEntry) : Nat :=
  pageTable.countP (fun e => e.valid)

/-- Number of valid entries of the page tables of a list of address spaces. -/
def validEntries (spaces : List AddrSpace) : Nat :=
  (spaces.map (fun s => validCount s.pageTable)).sum

/-- Number of pages written to the swap device in a trace. -/
def sectorsWritten (trace : List Event) : Nat :=
  trace.countP (fun ev =>
    match ev with
    | .writeSector _ => true
    | _ => false)

/-- No page is the target of a chunk of the code segment and of a chunk of the
initialized-data segment.  Chunk `k` of a segment exists when
`k * PageSize < size` and targets page `virtualAddr / PageSize + k`. -/
def segmentsShareNoPage (cfg : Config) (noffH : NoffHeader) : Prop :=
  ∀ k < (toInt32 noffH.code.size).toNat, ∀ k1 < (toInt32 noffH.initData.size).toNat,
    (k : Int) * cfg.PageSize < toInt32 noffH.code.size →
    (k1 : Int) * cfg.PageSize < toInt32 noffH.initData.size →
    Int.tdiv (toInt32 noffH.code.virtualAddr) cfg.PageSize + k
      ≠ Int.tdiv (toInt32 noffH.initData.virtualAddr) cfg.PageSize + k1

instance (cfg : Config) (noffH : NoffHeader) : Decidable (segmentsShareNoPage cfg noffH) := by
  unfold segmentsShareNoPage
  infer_instance

/-- The result of loading the two-page program while `otherSpace` holds
frames 0 and 1 and no other frame is taken. -/
def loadedBesideOther : Bool × State × AddrSpace :=
  (Load stockConfig (fun _ => some ⟨twoPageHeader⟩) "prog"
    (framesTaken stockConfig [0, 1]) (AddrSpace.ctor stockConfig 0)).resultD
      (false, framesTaken stockConfig [0, 1], AddrSpace.ctor stockConfig 0)

/-! ## Allocation steps -/

/-- The scan at the head of the loop body of `LoadSegment`: the first `j` below
`NumPhysPages` with `usedPhyPage[j]` clear becomes `freePage` and is marked;
`none` stands for `freePage = -1`. -/
def allocatePhysPage (cfg : Config) (st : State) : Option Nat × State :=
  match firstClear st.machine.usedPhyPage cfg.NumPhysPages 0 with
  | some freePage => (some freePage, st.setUsedPhyPage freePage)
  | none => (none, st)

/-- The call of `FindSwapPage` followed by `usedvirPage[swapPage] = TRUE`, as in
the swap branch of `LoadSegment`; `none` when `FindSwapPage` stops at its
`ASSERT(FALSE)`. -/
def allocateSwapPage (cfg : Config) (st : State) : Option (Nat × State) :=
  match FindSwapPage cfg st with
  | some swapPage => some (swapPage, st.setUsedvirPage swapPage)
  | none => none

/-! ## Registers, context switch, Execute -/

/-- Register numbers and register count of `machine.h`, which is not among the
sources. -/
structure RegisterLayout where
  NumTotalRegs : Nat
  PCReg : Nat
  NextPCReg : Nat
  StackReg : Nat

/-- The values of the stock NachOS `machine.h`. -/
def stockLayout : RegisterLayout :=
  { NumTotalRegs := 40, PCReg := 34, NextPCReg := 35, StackReg := 29 }

/-- The three special registers are registers, and they are three. -/
def RegisterLayout.WF (layout : RegisterLayout) : Prop :=
  layout.PCReg < layout.NumTotalRegs ∧ layout.NextPCReg < layout.NumTotalRegs ∧
    layout.StackReg < layout.NumTotalRegs ∧ layout.PCReg ≠ layout.NextPCReg ∧
    layout.PCReg ≠ layout.StackReg ∧ layout.NextPCReg ≠ layout.StackReg

instance (layout : RegisterLayout) : Decidable layout.WF := by
  unfold RegisterLayout.WF
  infer_instance

/-- Modelled from the spec: `Machine::WriteRegister` is not among the sources.
The spec lists it as `writeRegister(index, value)` of the execution engine: it
stores `value` in register `index`. -/
def WriteRegister (st : State) (num : Nat) (value : Int) : State :=
  { st with machine := { st.machine with registers := st.machine.registers.set num value } }

/-- The first loop of `InitRegisters`, from register `i`, with `remaining`
registers left. -/
def zeroRegisters : (remaining : Nat) → (i : Nat) → State → State
  | 0, _, st => st
  | remaining + 1, i, st => zeroRegisters remaining (i + 1) (WriteRegister st i 0)

/-- The value passed for the stack register: `numPages * PageSize - 16` in
`unsigned` arithmetic, received by `WriteRegister` as an `int`. -/
def initialStackPointer (cfg : Config) (numPages : Nat) : Int :=
  toInt32 (toUInt32 ((numPages : Int) * cfg.PageSize - 16))

/-- The routine `AddrSpace::InitRegisters`. -/
def AddrSpace.InitRegisters (cfg : Config) (layout : RegisterLayout) (st : State)
    (space : AddrSpace) : State :=
  let st1 := zeroRegisters layout.NumTotalRegs 0 st
  let st2 := WriteRegister st1 layout.PCReg 0
  let st3 := WriteRegister st2 layout.NextPCReg 4
  WriteRegister st3 layout.StackReg (initialStackPointer cfg space.numPages)

/-- The routine `AddrSpace::SaveState`.  The object takes over the pointer of the
machine; `pageTableDeleted` keeps its value, as the model does not follow which
array a pointer of the machine names. -/
def AddrSpace.SaveState (st : State) (space : AddrSpace) : State × AddrSpace :=
  (st, { space with
          pageTable := st.machine.pageTable, numPages := st.machine.pageTableSize })

/-- The routine `AddrSpace::RestoreState`. -/
def AddrSpace.RestoreState (st : State) (space : AddrSpace) : State × AddrSpace :=
  ({ st with machine :=
      { st.machine with pageTable := space.pageTable, pageTableSize := space.numPages } },
    space)

/-- How a call of `Execute` ends: it returns, or it has handed control to
`kernel->machine->Run()`, which does not return, or the run has ended before. -/
inductive ExecuteOutcome where
  | returned (st : State) (space : AddrSpace)
  | running (st : State) (space : AddrSpace)
  | abort (st : State)
  | undefined
deriving DecidableEq

/-- The routine `AddrSpace::Execute`. -/
def AddrSpace.Execute (cfg : Config) (layout : RegisterLayout)
    (fileSystem : String → Option OpenFile) (fileName : String) (st : State)
    (space : AddrSpace) : ExecuteOutcome :=
  match Load cfg fileSystem fileName st space with
  | .ok (false, st1, space1) => .returned st1 space1
  | .ok (true, st1, space1) =>
    let st2 := AddrSpace.InitRegisters cfg layout st1 space1
    let r := AddrSpace.RestoreState st2 space1
    .running r.1 r.2
  | .abort s => .abort s
  | .undefined => .undefined

/-- The state `st` with the register file `regs`. -/
def withRegisters (st : State) (regs : List Int) : State :=
  { st with machine := { st.machine with registers := regs } }

/-- A state of the stock machine whose 40 registers all hold 7. -/
def staleRegisters : State :=
  withRegisters (freshState stockConfig false) (List.replicate 40 7)

/-- A header with a valid magic that needs 40 pages: 4096 bytes of
uninitialized data and the stack. -/
def largeHeader : NoffHeader :=
  { noffMagic := 0xbadfad, code := emptySegment, initData := emptySegment,
    uninitData := { virtualAddr := 0, inFileAddr := 0, size := 4096 } }

/-- Page `i` is the target of no chunk of the segment: chunk `k` exists when
`k * PageSize < size` and targets page `virtualAddr / PageSize + k`. -/
def notTargetOf (cfg : Config) (seg : Segment) (i : Nat) : Prop :=
  ∀ k < (toInt32 seg.size).toNat, (k : Int) * cfg.PageSize < toInt32 seg.size →
    (i : Int) ≠ Int.tdiv (toInt32 seg.virtualAddr) cfg.PageSize + k

instance (cfg : Config) (seg : Segment) (i : Nat) : Decidable (notTargetOf cfg seg i) := by
  unfold notTargetOf
  infer_instance

/-- The result of loading the two-page program into the fresh machine. -/
def loadedFresh : Bool × State × AddrSpace :=
  (Load stockConfig (fun _ => some ⟨twoPageHeader⟩) "prog"
    (freshState stockConfig false) (AddrSpace.ctor stockConfig 0)).resultD
      (false, freshState stockConfig false, AddrSpace.ctor stockConfig 0)

/-- A machine without swap device in which every frame is taken and every swap
slot is free. -/
def noFrameNoDisk (cfg : Config) : State :=
  framesTaken cfg (List.range cfg.NumPhysPages)

/-- The state after `n` successive loads of the two-page program, each into a
new address space, none of which is destroyed. -/
def loadTwoPageTimes : Nat → State → State
  | 0, st => st
  | n + 1, st =>
    loadTwoPageTimes n
      ((Load stockConfig (fun _ => some ⟨twoPageHeader⟩) "prog" st
        (AddrSpace.ctor stockConfig 0)).resultD (false, st, AddrSpace.ctor stockConfig 0)).2.1

/-! ## Machine integers: lemmas -/

/-- Reversing the four bytes of a 32-bit word twice gives the word back. -/
theorem byteReverse_twice (w : Nat) (hw : w < 4294967296) :
    ((w % 256) * 16777216 + (w / 256 % 256) * 65536
        + (w / 65536 % 256) * 256 + (w / 16777216 % 256)) % 256 * 16777216
      + ((w % 256) * 16777216 + (w / 256 % 256) * 65536
        + (w / 65536 % 256) * 256 + (w / 16777216 % 256)) / 256 % 256 * 65536
      + ((w % 256) * 16777216 + (w / 256 % 256) * 65536
        + (w / 65536 % 256) * 256 + (w / 16777216 % 256)) / 65536 % 256 * 256
      + ((w % 256) * 16777216 + (w / 256 % 256) * 65536
        + (w / 65536 % 256) * 256 + (w / 16777216 % 256)) / 16777216 % 256 = w := by
  have h0 : w % 256 < 256 := Nat.mod_lt _ (by decide)
  have h1 : w / 256 % 256 < 256 := Nat.mod_lt _ (by decide)
  have h2 : w / 65536 % 256 < 256 := Nat.mod_lt _ (by decide)
  have h3 : w / 16777216 % 256 < 256 := Nat.mod_lt _ (by decide)
  have hsum : w = w % 256 + (w / 256 % 256) * 256 + (w / 65536 % 256) * 65536
      + (w / 16777216 % 256) * 16777216 := by omega
  generalize w % 256 = b0 at *
  generalize w / 256 % 256 = b1 at *
  generalize w / 65536 % 256 = b2 at *
  generalize w / 16777216 % 256 = b3 at *
  have e0 : (b0 * 16777216 + b1 * 65536 + b2 * 256 + b3) % 256 = b3 := by omega
  have e1 : (b0 * 16777216 + b1 * 65536 + b2 * 256 + b3) / 256
      = b0 * 65536 + b1 * 256 + b2 := by omega
  have e2 : (b0 * 16777216 + b1 * 65536 + b2 * 256 + b3) / 65536 = b0 * 256 + b1 := by omega
  have e3 : (b0 * 16777216 + b1 * 65536 + b2 * 256 + b3) / 16777216 = b0 := by omega
  have f1 : (b0 * 65536 + b1 * 256 + b2) % 256 = b2 := by omega
  have f2 : (b0 * 256 + b1) % 256 = b1 := by omega
  have f3 : b0 % 256 = b0 := by omega
  rw [e0, e1, e2, e3, f1, f2, f3]
  clear e0 e1 e2 e3 f1 f2 f3
  omega

theorem WordToHost_lt (cfg : Config) (w : Nat) : WordToHost cfg w < 4294967296 := by
  unfold WordToHost
  split
  · have h0 : w % 256 < 256 := Nat.mod_lt _ (by decide)
    have h1 : w / 256 % 256 < 256 := Nat.mod_lt _ (by decide)
    have h2 : w / 65536 % 256 < 256 := Nat.mod_lt _ (by decide)
    have h3 : w / 16777216 % 256 < 256 := Nat.mod_lt _ (by decide)
    omega
  · exact Nat.mod_lt _ (by decide)

theorem WordToHost_twice (cfg : Config) (w : Nat) (hw : w < 4294967296) :
    WordToHost cfg (WordToHost cfg w) = w := by
  unfold WordToHost
  cases cfg.hostIsBigEndian with
  | true => simpa using byteReverse_twice w hw
  | false =>
    simp only [Bool.false_eq_true, if_false]
    omega

theorem SwapSegment_twice (cfg : Config) (s : Segment) (hs : s.WF) :
    SwapSegment cfg (SwapSegment cfg s) = s := by
  obtain ⟨hv, hf, hz⟩ := hs
  cases s
  simp only [SwapSegment] at *
  simp [WordToHost_twice cfg _ hv, WordToHost_twice cfg _ hf, WordToHost_twice cfg _ hz]

/-- C10. Applying `SwapHeader` twice to a header of 32-bit words gives back the
header, in all ten fields. -/
theorem SwapHeader_involution (cfg : Config) (noffH : NoffHeader) (hwf : noffH.WF) :
    SwapHeader cfg (SwapHeader cfg noffH) = noffH := by
  obtain ⟨hm, hc, hi, hu⟩ := hwf
  cases noffH
  simp only [SwapHeader] at *
  simp [WordToHost_twice cfg _ hm, SwapSegment_twice cfg _ hc, SwapSegment_twice cfg _ hi,
    SwapSegment_twice cfg _ hu]

/-- Witness of `SwapHeader_involution` on a host that swaps bytes. -/
theorem SwapHeader_involution_witness :
    twoPageHeader.WF ∧
      SwapHeader bigEndianConfig (SwapHeader bigEndianConfig twoPageHeader) = twoPageHeader :=
  ⟨by decide, SwapHeader_involution bigEndianConfig twoPageHeader (by decide)⟩

/-! ## Page count -/

theorem divRoundUp_eq_ceil (n s : Nat) (hs : 0 < s) :
    divRoundUp n s = ⌈((n : ℚ)) / (s : ℚ)⌉₊ := by
  symm
  have hsq : (0 : ℚ) < s := by exact_mod_cast hs
  have hdm : s * (n / s) + n % s = n := Nat.div_add_mod n s
  have hlt : n % s < s := Nat.mod_lt n hs
  unfold divRoundUp
  by_cases hr : n % s > 0
  · rw [if_pos hr, Nat.ceil_eq_iff (Nat.succ_ne_zero _)]
    constructor
    · rw [lt_div_iff₀ hsq]
      have : (n / s + 1 - 1) * s < n := by
        have : (n / s + 1 - 1) * s = s * (n / s) := by
          rw [Nat.add_sub_cancel, Nat.mul_comm]
        omega
      exact_mod_cast this
    · rw [div_le_iff₀ hsq]
      have : n ≤ (n / s + 1) * s := by
        have : (n / s + 1) * s = s * (n / s) + s := by ring
        omega
      exact_mod_cast this
  · rw [if_neg hr]
    have h0 : n % s = 0 := by omega
    have hn : n = (n / s) * s := by
      have : s * (n / s) = n / s * s := Nat.mul_comm _ _
      omega
    have hq : ((n : ℚ)) / (s : ℚ) = ((n / s : Nat) : ℚ) := by
      rw [div_eq_iff (ne_of_gt hsq)]
      exact_mod_cast hn
    rw [hq, Nat.ceil_natCast, Nat.add_zero]

/-- In general `numPages` is the ceiling for the sum reduced modulo `2^32`. -/
theorem computeNumPages_eq_ceil_mod (cfg : Config) (noffH : NoffHeader) :
    computeNumPages cfg noffH =
      ⌈(((noffH.code.size + noffH.initData.size + noffH.uninitData.size + cfg.UserStackSize)
          % 4294967296 : Nat) : ℚ) / (cfg.PageSize : ℚ)⌉₊ := by
  unfold computeNumPages
  exact divRoundUp_eq_ceil _ _ cfg.PageSize_pos

/-- C9, as amended. When the integer sum of the three segment sizes and the
stack size fits in 32 bits, the `numPages` computed by `Load` is the ceiling of
that sum divided by `PageSize`. -/
theorem computeNumPages_eq_requiredPages (cfg : Config) (noffH : NoffHeader)
    (hsum : noffH.code.size + noffH.initData.size + noffH.uninitData.size + cfg.UserStackSize
      < 4294967296) :
    computeNumPages cfg noffH = requiredPages noffH cfg.UserStackSize cfg.PageSize := by
  rw [computeNumPages_eq_ceil_mod, Nat.mod_eq_of_lt hsum]
  rfl

/-- Witness of `computeNumPages_eq_requiredPages`: the sizing example of the
spec, whose page count is 2. -/
theorem computeNumPages_eq_requiredPages_witness :
    computeNumPages sizingConfig sizingHeader = 2 ∧
      computeNumPages sizingConfig sizingHeader = requiredPages sizingHeader 4096 4096 :=
  ⟨by decide, computeNumPages_eq_requiredPages sizingConfig sizingHeader (by decide)⟩

/-- C9, counterexample. For a header with a valid magic whose sizes add up to
`2^32 + 1022`, `Load` computes 8 pages while the ceiling of the integer sum
divided by the page size is 33554440. -/
theorem computeNumPages_overflow :
    overflowHeader.noffMagic = stockConfig.NOFFMAGIC ∧
      computeNumPages stockConfig overflowHeader = 8 ∧
      requiredPages overflowHeader stockConfig.UserStackSize stockConfig.PageSize = 33554440 ∧
      computeNumPages stockConfig overflowHeader ≠
        requiredPages overflowHeader stockConfig.UserStackSize stockConfig.PageSize := by
  have h1 : computeNumPages stockConfig overflowHeader = 8 := by decide
  have h2 : requiredPages overflowHeader stockConfig.UserStackSize stockConfig.PageSize
      = 33554440 := by
    unfold requiredPages
    rw [Nat.ceil_eq_iff (by decide)]
    simp only [overflowHeader, emptySegment, stockConfig]
    constructor <;> norm_num
  refine ⟨by decide, h1, h2, ?_⟩
  rw [h1, h2]
  decide

/-! ## Invalid header -/

/-- C8, as amended. When the magic of the header is `NOFFMAGIC` in neither byte
order, `Load` does not return: it stops at `ASSERT(noffH.noffMagic == NOFFMAGIC)`.
At that point the executable is still open and nothing else in the state has
changed: no frame and no swap slot has been allocated. -/
theorem Load_bad_magic_aborts (cfg : Config) (fileSystem : String → Option OpenFile)
    (fileName : String) (st : State) (space : AddrSpace) (executable : OpenFile)
    (hopen : fileSystem fileName = some executable)
    (hmagic : executable.noffH.noffMagic ≠ cfg.NOFFMAGIC)
    (hswapped : WordToHost cfg executable.noffH.noffMagic ≠ cfg.NOFFMAGIC) :
    Load cfg fileSystem fileName st space
      = .abort { st with openFiles := st.openFiles + 1 } := by
  have hrep : repairHeader cfg executable.noffH = executable.noffH := by
    unfold repairHeader
    rw [if_neg]
    intro h
    exact hswapped h.2
  unfold Load
  simp only [hopen, hrep]
  rw [if_pos hmagic]

/-- Witness of `Load_bad_magic_aborts`. -/
theorem Load_bad_magic_aborts_witness :
    Load stockConfig (fun _ => some ⟨badMagicHeader⟩) "prog" (freshState stockConfig false)
        (AddrSpace.ctor stockConfig 0)
      = .abort { freshState stockConfig false with openFiles := 1 } :=
  Load_bad_magic_aborts stockConfig (fun _ => some ⟨badMagicHeader⟩) "prog"
    (freshState stockConfig false) (AddrSpace.ctor stockConfig 0) ⟨badMagicHeader⟩ rfl
    (by decide) (by decide)

/-- C8, counterexample. For a header with magic 0, which is `NOFFMAGIC` in
neither byte order, `Load` returns nothing, not even `FALSE`: it aborts, with
the executable still open. -/
theorem Load_bad_magic_not_returned :
    badMagicHeader.noffMagic ≠ stockConfig.NOFFMAGIC ∧
      WordToHost stockConfig badMagicHeader.noffMagic ≠ stockConfig.NOFFMAGIC ∧
      WordToHost bigEndianConfig badMagicHeader.noffMagic ≠ stockConfig.NOFFMAGIC ∧
      (¬ ∃ st1 space1,
        Load stockConfig (fun _ => some ⟨badMagicHeader⟩) "prog" (freshState stockConfig false)
          (AddrSpace.ctor stockConfig 0) = .ok (false, st1, space1)) ∧
      Load stockConfig (fun _ => some ⟨badMagicHeader⟩) "prog" (freshState stockConfig false)
          (AddrSpace.ctor stockConfig 0)
        = .abort { freshState stockConfig false with openFiles := 1 } := by
  have h : Load stockConfig (fun _ => some ⟨badMagicHeader⟩) "prog"
      (freshState stockConfig false) (AddrSpace.ctor stockConfig 0)
        = .abort { freshState stockConfig false with openFiles := 1 } := by
    decide
  refine ⟨by decide, by decide, by decide, ?_, h⟩
  rintro ⟨st1, space1, hret⟩
  rw [h] at hret
  exact Outcome.noConfusion hret

/-! ## Scanning a bitmap -/

theorem firstClear_eq_none_iff (used : List Bool) (remaining j : Nat) :
    firstClear used remaining j = none ↔ clearCount used remaining j = 0 := by
  induction remaining generalizing j with
  | zero => simp [firstClear, clearCount]
  | succ r ih =>
    unfold firstClear clearCount
    by_cases h : used[j]? = some false
    · simp [h]
    · simp [h, ih]

/-! ## Exhaustion -/

/-- C3, as amended. With no free frame and no free swap slot, loading a
non-empty segment does not return: during the first chunk `FindSwapPage` reaches
`ASSERT(FALSE)`.  At that point both bitmaps are as they were before the call. -/
theorem LoadSegment_exhausted_aborts (cfg : Config) (inFileAddr segmentSize virtualAddr : Int)
    (st : State) (pageTable : List TranslationEntry)
    (hsize : 0 < segmentSize)
    (hframes : freeCount cfg st.machine.usedPhyPage = 0)
    (hslots : freeCount cfg st.machine.usedvirPage = 0) :
    ∃ st1, LoadSegment cfg inFileAddr segmentSize virtualAddr st pageTable = .abort st1 ∧
      st1.machine = st.machine ∧ st1.staticUsedPhyPage = st.staticUsedPhyPage := by
  have hf : firstClear st.machine.usedPhyPage cfg.NumPhysPages 0 = none :=
    (firstClear_eq_none_iff _ _ _).2 hframes
  have hs : firstClear st.machine.usedvirPage cfg.NumPhysPages 0 = none :=
    (firstClear_eq_none_iff _ _ _).2 hslots
  obtain ⟨fuel, hfuel⟩ : ∃ fuel, segmentSize.toNat = fuel + 1 :=
    ⟨segmentSize.toNat - 1, by omega⟩
  unfold LoadSegment
  simp only [hfuel, LoadSegmentLoop, hsize, if_true, LoadSegmentBody, hf, FindSwapPage,
    State.log, hs]
  exact ⟨_, rfl, rfl, rfl⟩

/-- Witness of `LoadSegment_exhausted_aborts`. -/
theorem LoadSegment_exhausted_aborts_witness :
    ∃ st1, LoadSegment stockConfig 40 256 0 (fullState stockConfig)
        ((List.range 10).map unmappedEntry) = .abort st1 ∧
      st1.machine = (fullState stockConfig).machine ∧
      st1.staticUsedPhyPage = (fullState stockConfig).staticUsedPhyPage :=
  LoadSegment_exhausted_aborts stockConfig 40 256 0 (fullState stockConfig)
    ((List.range 10).map unmappedEntry) (by decide) (by decide) (by decide)

/-- C3, counterexample. With all 32 frames and all 32 swap slots taken,
loading a segment of two pages hands no failure back to `Load`: the run ends
in the abort of `FindSwapPage`. -/
theorem LoadSegment_exhausted_not_returned :
    freeCount stockConfig (fullState stockConfig).machine.usedPhyPage = 0 ∧
      freeCount stockConfig (fullState stockConfig).machine.usedvirPage = 0 ∧
      (¬ ∃ r, LoadSegment stockConfig 40 256 0 (fullState stockConfig)
          ((List.range 10).map unmappedEntry) = .ok r) ∧
      LoadSegment stockConfig 40 256 0 (fullState stockConfig)
          ((List.range 10).map unmappedEntry)
        = .abort (((fullState stockConfig).log (.readAt .buffer 128 40)).log .findSwapPage) := by
  have h : LoadSegment stockConfig 40 256 0 (fullState stockConfig)
      ((List.range 10).map unmappedEntry)
        = .abort (((fullState stockConfig).log (.readAt .buffer 128 40)).log .findSwapPage) := by
    decide
  refine ⟨by decide, by decide, ?_, h⟩
  rintro ⟨r, hret⟩
  rw [h] at hret
  exact Outcome.noConfusion hret

/-! ## Chunks of a segment that does not start on a page boundary -/

/-- C6, the code at the failing input. A segment of 300 bytes at file offset 40
and virtual address 64 (page size 128) is read in three chunks, `[40, 104)`,
`[168, 296)` and `[296, 340)`: the loop variable advances by a whole page after
the short first chunk, and the 64 bytes `[104, 168)` of the segment are read
by no chunk. -/
theorem LoadSegment_unaligned_skips_bytes :
    ((LoadSegment stockConfig 40 300 64 (freshState stockConfig false)
        ((List.range 10).map unmappedEntry)).result?.map (fun r => r.1.trace))
      = some [.readAt (.mainMemory 64) 64 40, .readAt (.mainMemory 128) 128 168,
          .readAt (.mainMemory 256) 44 296] ∧
    ((LoadSegment stockConfig 40 300 64 (freshState stockConfig false)
        ((List.range 10).map unmappedEntry)).result?.map (fun r => readRanges r.1.trace))
      = some [(40, 104), (168, 296), (296, 340)] ∧
    ((LoadSegment stockConfig 40 300 64 (freshState stockConfig false)
        ((List.range 10).map unmappedEntry)).result?.map (fun r => byteRead r.1.trace 104))
      = some false := by
  decide

/-! ## Destruction -/

/-- C1, the code at the failing input. With frames 0, 1, 3 and 4 taken, `Load`
of a two-page program gives the address space frames 2 and 5 and sets bits 2
and 5 of `kernel->machine->usedPhyPage`.  The destructor then indexes the
static `AddrSpace::usedPhyPage` with the `physicalPage = -1` of the pages that
were never loaded.  Run over the two valid entries only, it clears bits of the
static array and leaves the bitmap of the machine as it was, bits 2 and 5
still set. -/
theorem dtor_leaves_machine_bitmap :
    ((Load stockConfig (fun _ => some ⟨twoPageHeader⟩) "prog"
        (framesTaken stockConfig [0, 1, 3, 4]) (AddrSpace.ctor stockConfig 0)).result?.map
          (fun r => (r.1, ownedFrames r.2.2.pageTable, r.2.2.numPages,
            r.2.1.machine.usedPhyPage.take 6)))
      = some (true, [2, 5], 10, [true, true, true, true, true, true]) ∧
    ((Load stockConfig (fun _ => some ⟨twoPageHeader⟩) "prog"
        (framesTaken stockConfig [0, 1, 3, 4]) (AddrSpace.ctor stockConfig 0)).result?.map
          (fun r => decide (AddrSpace.dtor stockConfig r.2.1 r.2.2 = .undefined)))
      = some true ∧
    ((Load stockConfig (fun _ => some ⟨twoPageHeader⟩) "prog"
        (framesTaken stockConfig [0, 1, 3, 4]) (AddrSpace.ctor stockConfig 0)).result?.map
          (fun r =>
            (AddrSpace.dtor stockConfig r.2.1
              { pageTable := r.2.2.pageTable.take 2, numPages := 2 }).result?.map
                (fun r2 => (decide (r2.1.machine = r.2.1.machine),
                  r2.1.machine.usedPhyPage.take 6))))
      = some (some (true, [true, true, true, true, true, true])) := by
  decide

/-! ## One pass of the loop of `LoadSegment` -/

theorem firstClear_some (used : List Bool) (remaining j f : Nat)
    (h : firstClear used remaining j = some f) :
    used[f]? = some false ∧ j ≤ f ∧ f < j + remaining := by
  induction remaining generalizing j with
  | zero => simp [firstClear] at h
  | succ r ih =>
    unfold firstClear at h
    by_cases hj : used[j]? = some false
    · rw [if_pos hj] at h
      cases h
      exact ⟨hj, Nat.le_refl _, by omega⟩
    · rw [if_neg hj] at h
      obtain ⟨h1, h2, h3⟩ := ih (j + 1) h
      exact ⟨h1, by omega, by omega⟩

theorem firstClear_lt_length (used : List Bool) (remaining j f : Nat)
    (h : firstClear used remaining j = some f) : f < used.length := by
  have h1 := (firstClear_some used remaining j f h).1
  by_contra hlt
  rw [List.getElem?_eq_none (by omega)] at h1
  cases h1

/-- What a pass that completes has done: it took the first free frame and made
the entry valid on it, or, with no free frame, it took the first free swap slot,
stored it in `virtualPage` and left the entry not valid. -/
theorem LoadSegmentBody_ok (cfg : Config) (inFileAddr segmentSize startPage i pageOffset : Int)
    (st st1 : State) (pageTable pageTable1 : List TranslationEntry)
    (h : LoadSegmentBody cfg inFileAddr segmentSize startPage i pageOffset st pageTable
      = .ok (st1, pageTable1)) :
    0 ≤ startPage + Int.tdiv i cfg.PageSize ∧
    ∃ e, pageTable[(startPage + Int.tdiv i cfg.PageSize).toNat]? = some e ∧
      st1.staticUsedPhyPage = st.staticUsedPhyPage ∧
      st1.virtualMemoryDisk = st.virtualMemoryDisk ∧
      st1.openFiles = st.openFiles ∧
      ((∃ freePage, firstClear st.machine.usedPhyPage cfg.NumPhysPages 0 = some freePage ∧
          st1.machine.usedPhyPage = st.machine.usedPhyPage.set freePage true ∧
          st1.machine.usedvirPage = st.machine.usedvirPage ∧
          pageTable1 = pageTable.set (startPage + Int.tdiv i cfg.PageSize).toNat
            { e with physicalPage := freePage, valid := true } ∧
          st1.trace = st.trace ++
            [.readAt (.mainMemory (freePage * cfg.PageSize + pageOffset))
              (minIntUnsigned (cfg.PageSize - pageOffset) (toUInt32 (segmentSize - i)))
              (inFileAddr + i)]) ∨
        (firstClear st.machine.usedPhyPage cfg.NumPhysPages 0 = none ∧
          ∃ swapPage, firstClear st.machine.usedvirPage cfg.NumPhysPages 0 = some swapPage ∧
            st.virtualMemoryDisk = true ∧
            st1.machine.usedPhyPage = st.machine.usedPhyPage ∧
            st1.machine.usedvirPage = st.machine.usedvirPage.set swapPage true ∧
            pageTable1 = pageTable.set (startPage + Int.tdiv i cfg.PageSize).toNat
              { e with virtualPage := swapPage, valid := false } ∧
            st1.trace = st.trace ++
              [.readAt .buffer
                (minIntUnsigned (cfg.PageSize - pageOffset) (toUInt32 (segmentSize - i)))
                (inFileAddr + i), .findSwapPage, .writeSector swapPage])) := by
  unfold LoadSegmentBody at h
  cases hf : firstClear st.machine.usedPhyPage cfg.NumPhysPages 0 with
  | some freePage =>
    simp only [hf] at h
    by_cases hv : 0 ≤ startPage + Int.tdiv i cfg.PageSize
    · rw [if_pos hv] at h
      cases he : pageTable[(startPage + Int.tdiv i cfg.PageSize).toNat]? with
      | none => simp [he] at h
      | some e =>
        simp only [he, Outcome.ok.injEq, Prod.mk.injEq] at h
        obtain ⟨h1, h2⟩ := h
        subst h1 h2
        exact ⟨hv, e, rfl, rfl, rfl, rfl, Or.inl ⟨freePage, rfl, rfl, rfl, rfl, rfl⟩⟩
    · rw [if_neg hv] at h
      cases h
  | none =>
    simp only [hf, FindSwapPage, State.log] at h
    cases hs : firstClear st.machine.usedvirPage cfg.NumPhysPages 0 with
    | none => simp [hs] at h
    | some swapPage =>
      simp only [hs, State.setUsedvirPage] at h
      cases hd : st.virtualMemoryDisk with
      | false => simp [hd] at h
      | true =>
        simp only [hd, Bool.true_eq_false, if_false] at h
        by_cases hv : 0 ≤ startPage + Int.tdiv i cfg.PageSize
        · rw [if_pos hv] at h
          cases he : pageTable[(startPage + Int.tdiv i cfg.PageSize).toNat]? with
          | none => simp [he] at h
          | some e =>
            simp only [he, Outcome.ok.injEq, Prod.mk.injEq] at h
            obtain ⟨h1, h2⟩ := h
            subst h1 h2
            refine ⟨hv, e, rfl, rfl, rfl, rfl,
              Or.inr ⟨rfl, swapPage, rfl, rfl, rfl, rfl, rfl, ?_⟩⟩
            simp
        · rw [if_neg hv] at h
          cases h

/-- A property of the state and the page table that every completed pass
preserves holds after the loop when it held before. -/
theorem LoadSegmentLoop_invariant (cfg : Config) (inFileAddr segmentSize startPage : Int)
    (P : State → List TranslationEntry → Prop)
    (hstep : ∀ i pageOffset st pageTable st1 pageTable1, P st pageTable →
      LoadSegmentBody cfg inFileAddr segmentSize startPage i pageOffset st pageTable
        = .ok (st1, pageTable1) → P st1 pageTable1)
    (fuel : Nat) (i pageOffset : Int) (st st1 : State)
    (pageTable pageTable1 : List TranslationEntry) (hP : P st pageTable)
    (h : LoadSegmentLoop cfg inFileAddr segmentSize startPage fuel i pageOffset st pageTable
      = .ok (st1, pageTable1)) : P st1 pageTable1 := by
  induction fuel generalizing i pageOffset st pageTable with
  | zero =>
    simp only [LoadSegmentLoop, Outcome.ok.injEq, Prod.mk.injEq] at h
    obtain ⟨h1, h2⟩ := h
    subst h1 h2
    exact hP
  | succ fuel ih =>
    unfold LoadSegmentLoop at h
    by_cases hi : i < segmentSize
    · rw [if_pos hi] at h
      cases hb : LoadSegmentBody cfg inFileAddr segmentSize startPage i pageOffset st
          pageTable with
      | ok r =>
        obtain ⟨st2, pageTable2⟩ := r
        simp only [hb] at h
        exact ih _ _ _ _ (hstep _ _ _ _ _ _ hP hb) h
      | abort s => simp [hb] at h
      | undefined => simp [hb] at h
    · rw [if_neg hi] at h
      simp only [Outcome.ok.injEq, Prod.mk.injEq] at h
      obtain ⟨h1, h2⟩ := h
      subst h1 h2
      exact hP

/-- The fuel given by `LoadSegment` is enough: from loop variable `i`, any fuel of
at least `segmentSize - i` gives the same run as more fuel. -/
theorem LoadSegmentLoop_fuel (cfg : Config) (inFileAddr segmentSize startPage : Int)
    (fuel : Nat) : ∀ (extra : Nat) (i pageOffset : Int) (st : State)
      (pageTable : List TranslationEntry), (segmentSize - i).toNat ≤ fuel →
      LoadSegmentLoop cfg inFileAddr segmentSize startPage (fuel + extra) i pageOffset st
          pageTable
        = LoadSegmentLoop cfg inFileAddr segmentSize startPage fuel i pageOffset st
          pageTable := by
  induction fuel with
  | zero =>
    intro extra i pageOffset st pageTable hle
    cases extra with
    | zero => rfl
    | succ extra =>
      rw [Nat.zero_add]
      unfold LoadSegmentLoop
      rw [if_neg (by omega)]
  | succ fuel ih =>
    intro extra i pageOffset st pageTable hle
    have hP : (0 : Int) < cfg.PageSize := by exact_mod_cast cfg.PageSize_pos
    have hshape : fuel + 1 + extra = (fuel + extra) + 1 := by omega
    rw [hshape]
    unfold LoadSegmentLoop
    by_cases hi : i < segmentSize
    · rw [if_pos hi, if_pos hi]
      cases hb : LoadSegmentBody cfg inFileAddr segmentSize startPage i pageOffset st
          pageTable with
      | ok r =>
        obtain ⟨st1, pageTable1⟩ := r
        exact ih extra _ _ _ _ (by omega)
      | abort s => rfl
      | undefined => rfl
    · rw [if_neg hi, if_neg hi]

/-- What a destructor that completes has done: it has stored `false` at the
indices the loop visits in the static array, marked the page table deleted and
changed nothing else; the address space was not deleted before. -/
theorem dtor_ok (cfg : Config) (st st1 : State) (space space1 : AddrSpace)
    (h : AddrSpace.dtor cfg st space = .ok (st1, space1)) :
    space.pageTableDeleted = false ∧
    destructorLoop cfg space.pageTable space.numPages 0 st.staticUsedPhyPage
      = some st1.staticUsedPhyPage ∧
    st1 = { st with staticUsedPhyPage := st1.staticUsedPhyPage } ∧
    space1 = { space with pageTableDeleted := true } := by
  unfold AddrSpace.dtor at h
  cases hd : space.pageTableDeleted with
  | true => simp [hd] at h
  | false =>
    simp only [hd, Bool.false_eq_true, if_false] at h
    cases hl : destructorLoop cfg space.pageTable space.numPages 0 st.staticUsedPhyPage with
    | none => simp [hl] at h
    | some used =>
      simp only [hl, Outcome.ok.injEq, Prod.mk.injEq] at h
      obtain ⟨h1, h2⟩ := h
      subst h1 h2
      exact ⟨rfl, rfl, rfl, rfl⟩

/-- Whatever address space it runs on, a destructor that completes has written
the static array only: the machine, and with it the bitmap `LoadSegment` scans,
is as before. -/
theorem dtor_machine_unchanged (cfg : Config) (st st1 : State) (space space1 : AddrSpace)
    (h : AddrSpace.dtor cfg st space = .ok (st1, space1)) :
    st1.machine = st.machine ∧ st1.virtualMemoryDisk = st.virtualMemoryDisk := by
  obtain ⟨-, -, h3, -⟩ := dtor_ok _ _ _ _ _ h
  rw [h3]
  exact ⟨rfl, rfl⟩

/-! ## From the loop to `Load` -/

theorem getElem?_set_some {α : Type} {l : List α} {v i : Nat} {a e : α}
    (h : (l.set v a)[i]? = some e) : (v = i ∧ e = a) ∨ (v ≠ i ∧ l[i]? = some e) := by
  rw [List.getElem?_set] at h
  by_cases hvi : v = i
  · rw [if_pos hvi] at h
    by_cases hl : v < l.length
    · rw [if_pos hl] at h
      cases h
      exact Or.inl ⟨hvi, rfl⟩
    · rw [if_neg hl] at h
      cases h
  · rw [if_neg hvi] at h
    exact Or.inr ⟨hvi, h⟩

theorem LoadSegment_invariant (cfg : Config) (inFileAddr segmentSize virtualAddr : Int)
    (P : State → List TranslationEntry → Prop)
    (hstep : ∀ startPage i pageOffset st pageTable st1 pageTable1, P st pageTable →
      LoadSegmentBody cfg inFileAddr segmentSize startPage i pageOffset st pageTable
        = .ok (st1, pageTable1) → P st1 pageTable1)
    (st st1 : State) (pageTable pageTable1 : List TranslationEntry) (hP : P st pageTable)
    (h : LoadSegment cfg inFileAddr segmentSize virtualAddr st pageTable
      = .ok (st1, pageTable1)) : P st1 pageTable1 :=
  LoadSegmentLoop_invariant cfg inFileAddr segmentSize _ P (hstep _) _ _ _ _ _ _ _ hP h

theorem loadSegments_invariant (cfg : Config) (noffH : NoffHeader)
    (P : State → List TranslationEntry → Prop)
    (hstep : ∀ inFileAddr segmentSize startPage i pageOffset st pageTable st1 pageTable1,
      P st pageTable →
      LoadSegmentBody cfg inFileAddr segmentSize startPage i pageOffset st pageTable
        = .ok (st1, pageTable1) → P st1 pageTable1)
    (st st1 : State) (pageTable pageTable1 : List TranslationEntry) (hP : P st pageTable)
    (h : loadSegments cfg noffH st pageTable = .ok (st1, pageTable1)) : P st1 pageTable1 := by
  unfold loadSegments at h
  have hcode : ∀ r, (if toInt32 noffH.code.size > 0 then
      LoadSegment cfg (toInt32 noffH.code.inFileAddr) (toInt32 noffH.code.size)
        (toInt32 noffH.code.virtualAddr) st pageTable
      else .ok (st, pageTable)) = .ok r → P r.1 r.2 := by
    intro r hr
    by_cases hc : toInt32 noffH.code.size > 0
    · rw [if_pos hc] at hr
      exact LoadSegment_invariant cfg _ _ _ P (hstep _ _) _ _ _ _ hP hr
    · rw [if_neg hc] at hr
      cases hr
      exact hP
  cases hr : (if toInt32 noffH.code.size > 0 then
      LoadSegment cfg (toInt32 noffH.code.inFileAddr) (toInt32 noffH.code.size)
        (toInt32 noffH.code.virtualAddr) st pageTable
      else .ok (st, pageTable)) with
  | ok r =>
    obtain ⟨st2, pageTable2⟩ := r
    have hP2 : P st2 pageTable2 := hcode _ hr
    simp only [hr] at h
    by_cases hd : toInt32 noffH.initData.size > 0
    · rw [if_pos hd] at h
      exact LoadSegment_invariant cfg _ _ _ P (hstep _ _) _ _ _ _ hP2 h
    · rw [if_neg hd] at h
      cases h
      exact hP2
  | abort s => simp [hr] at h
  | undefined => simp [hr] at h

/-- What a `Load` that returns `TRUE` has done. -/
theorem Load_ok_true (cfg : Config) (fileSystem : String → Option OpenFile)
    (fileName : String) (st st1 : State) (space space1 : AddrSpace)
    (h : Load cfg fileSystem fileName st space = .ok (true, st1, space1)) :
    ∃ executable st2 pageTable1,
      fileSystem fileName = some executable ∧
      (repairHeader cfg executable.noffH).noffMagic = cfg.NOFFMAGIC ∧
      loadSegments cfg (repairHeader cfg executable.noffH)
        { st with openFiles := st.openFiles + 1 }
        ((List.range (computeNumPages cfg (repairHeader cfg executable.noffH))).map
          unmappedEntry) = .ok (st2, pageTable1) ∧
      st1 = { st2 with openFiles := st2.openFiles - 1 } ∧
      space1 = { pageTable := pageTable1,
                 numPages := computeNumPages cfg (repairHeader cfg executable.noffH) } := by
  unfold Load at h
  cases hopen : fileSystem fileName with
  | none => simp [hopen] at h
  | some executable =>
    simp only [hopen] at h
    by_cases hm : (repairHeader cfg executable.noffH).noffMagic ≠ cfg.NOFFMAGIC
    · rw [if_pos hm] at h
      cases h
    · rw [if_neg hm] at h
      split at h
      · simp at h
      · cases hl : loadSegments cfg (repairHeader cfg executable.noffH)
            { st with openFiles := st.openFiles + 1 }
            ((List.range (computeNumPages cfg (repairHeader cfg executable.noffH))).map
              unmappedEntry) with
        | ok r =>
          obtain ⟨st2, pageTable1⟩ := r
          simp only [hl, Outcome.ok.injEq, Prod.mk.injEq, true_and] at h
          obtain ⟨h1, h2⟩ := h
          exact ⟨executable, st2, pageTable1, rfl, not_not.mp hm, hl, h1.symm, h2.symm⟩
        | abort s => simp [hl] at h
        | undefined => simp [hl] at h

theorem unmappedTable_getElem? (n i : Nat) (e : TranslationEntry)
    (h : ((List.range n).map unmappedEntry)[i]? = some e) : e = unmappedEntry i := by
  rw [List.getElem?_map] at h
  by_cases hi : i < n
  · rw [List.getElem?_range hi] at h
    simpa using h.symm
  · rw [List.getElem?_eq_none (by simpa using hi)] at h
    cases h

/-! ## Exclusive ownership of frames -/

theorem marked_set_of_marked (used : List Bool) (f : Nat) (p : Int)
    (hf : used[f]? = some false) (hp : marked used p) : marked (used.set f true) p := by
  obtain ⟨h0, h1⟩ := hp
  refine ⟨h0, ?_⟩
  have hne : f ≠ p.toNat := by
    intro heq
    rw [heq, h1] at hf
    cases hf
  rw [List.getElem?_set_ne hne]
  exact h1

theorem OwnsFresh_step (cfg : Config) (used0 : List Bool)
    (inFileAddr segmentSize startPage i pageOffset : Int)
    (st : State) (pageTable : List TranslationEntry) (st1 : State)
    (pageTable1 : List TranslationEntry) (hP : OwnsFresh used0 st pageTable)
    (h : LoadSegmentBody cfg inFileAddr segmentSize startPage i pageOffset st pageTable
      = .ok (st1, pageTable1)) : OwnsFresh used0 st1 pageTable1 := by
  obtain ⟨hlen, hmono, hown, hdist⟩ := hP
  obtain ⟨-, e, -, -, -, -, hcase⟩ := LoadSegmentBody_ok _ _ _ _ _ _ _ _ _ _ h
  rcases hcase with ⟨f, hf, hused, -, hpt, -⟩ | ⟨-, s, -, -, hused, -, hpt, -⟩
  · have hclear : st.machine.usedPhyPage[f]? = some false := (firstClear_some _ _ _ _ hf).1
    have hflt : f < st.machine.usedPhyPage.length := firstClear_lt_length _ _ _ _ hf
    have hfresh : used0[f]? = some false := by
      have hlt0 : f < used0.length := by omega
      cases hb : used0[f] with
      | false => rw [List.getElem?_eq_getElem hlt0, hb]
      | true =>
        have h1 : used0[f]? = some true := by rw [List.getElem?_eq_getElem hlt0, hb]
        have h2 := hmono f h1
        rw [hclear] at h2
        cases h2
    have hnew : marked (st.machine.usedPhyPage.set f true) (f : Int) := by
      refine ⟨Int.ofNat_nonneg f, ?_⟩
      rw [Int.toNat_ofNat, List.getElem?_set_self hflt]
    have hother : ∀ p : Int, marked st.machine.usedPhyPage p → p ≠ (f : Int) := by
      intro p hp heq
      rw [heq] at hp
      have h2 := hp.2
      rw [Int.toNat_ofNat, hclear] at h2
      cases h2
    unfold OwnsFresh
    rw [hused, hpt]
    refine ⟨by rw [List.length_set]; exact hlen, ?_, ?_, ?_⟩
    · intro g hg
      have h2 := hmono g hg
      have hne : f ≠ g := by
        intro heq
        rw [heq] at hclear
        rw [hclear] at h2
        cases h2
      rw [List.getElem?_set_ne hne]
      exact h2
    · intro k e1 hk hvalid
      rcases getElem?_set_some hk with ⟨-, he1⟩ | ⟨-, hk1⟩
      · subst he1
        exact ⟨hnew, by simpa using hfresh⟩
      · obtain ⟨hm, hz⟩ := hown k e1 hk1 hvalid
        exact ⟨marked_set_of_marked _ _ _ hclear hm, hz⟩
    · intro k j e1 e2 hk hj hv1 hv2 heq
      rcases getElem?_set_some hk with ⟨hk0, he1⟩ | ⟨hk0, hk1⟩
      · rcases getElem?_set_some hj with ⟨hj0, -⟩ | ⟨-, hj1⟩
        · omega
        · subst he1
          exact absurd heq.symm (hother _ (hown j e2 hj1 hv2).1)
      · rcases getElem?_set_some hj with ⟨-, he2⟩ | ⟨-, hj1⟩
        · subst he2
          exact absurd heq (hother _ (hown k e1 hk1 hv1).1)
        · exact hdist k j e1 e2 hk1 hj1 hv1 hv2 heq
  · unfold OwnsFresh
    rw [hused, hpt]
    refine ⟨hlen, hmono, ?_, ?_⟩
    · intro k e1 hk hvalid
      rcases getElem?_set_some hk with ⟨-, he1⟩ | ⟨-, hk1⟩
      · subst he1
        cases hvalid
      · exact hown k e1 hk1 hvalid
    · intro k j e1 e2 hk hj hv1 hv2 heq
      rcases getElem?_set_some hk with ⟨-, he1⟩ | ⟨-, hk1⟩
      · subst he1
        cases hv1
      · rcases getElem?_set_some hj with ⟨-, he2⟩ | ⟨-, hj1⟩
        · subst he2
          cases hv2
        · exact hdist k j e1 e2 hk1 hj1 hv1 hv2 heq

theorem OwnsFresh_unmapped (st : State) (n : Nat) :
    OwnsFresh st.machine.usedPhyPage { st with openFiles := st.openFiles + 1 }
      ((List.range n).map unmappedEntry) := by
  refine ⟨rfl, fun _ h => h, ?_, ?_⟩
  · intro i e he hvalid
    rw [unmappedTable_getElem? n i e he] at hvalid
    cases hvalid
  · intro i j e e1 he _ hvalid
    rw [unmappedTable_getElem? n i e he] at hvalid
    cases hvalid

/-- C7. After a `Load` that returns `TRUE`, started in a state whose physical
bitmap has a set bit for every frame held by a valid entry of another live
address space, every valid entry of the new page table holds a frame whose bit
is set, which no other valid entry of the new table holds and which no valid
entry of another live address space holds. -/
theorem Load_exclusive_frames (cfg : Config) (fileSystem : String → Option OpenFile)
    (fileName : String) (st st1 : State) (space space1 : AddrSpace) (others : List AddrSpace)
    (hothers : ∀ o ∈ others, ∀ e ∈ o.pageTable, e.valid = true →
      marked st.machine.usedPhyPage e.physicalPage)
    (hload : Load cfg fileSystem fileName st space = .ok (true, st1, space1))
    (i : Nat) (e : TranslationEntry) (hentry : space1.pageTable[i]? = some e)
    (hvalid : e.valid = true) :
    marked st1.machine.usedPhyPage e.physicalPage ∧
    (∀ (j : Nat) (e1 : TranslationEntry), space1.pageTable[j]? = some e1 → j ≠ i →
      e1.valid = true → e1.physicalPage ≠ e.physicalPage) ∧
    (∀ o ∈ others, ∀ e1 ∈ o.pageTable, e1.valid = true →
      e1.physicalPage ≠ e.physicalPage) := by
  obtain ⟨executable, st2, pageTable1, -, -, hsegs, hst1, hspace1⟩ :=
    Load_ok_true _ _ _ _ _ _ _ hload
  have hinv : OwnsFresh st.machine.usedPhyPage st2 pageTable1 :=
    loadSegments_invariant cfg _ (OwnsFresh st.machine.usedPhyPage)
      (fun _ _ _ _ _ _ _ _ _ hP hb => OwnsFresh_step cfg _ _ _ _ _ _ _ _ _ _ hP hb)
      _ _ _ _ (OwnsFresh_unmapped st _) hsegs
  obtain ⟨-, -, hown, hdist⟩ := hinv
  subst hst1 hspace1
  obtain ⟨hm, hz⟩ := hown i e hentry hvalid
  refine ⟨hm, ?_, ?_⟩
  · intro j e1 hj hne hv1 heq
    exact hne (hdist j i e1 e hj hentry hv1 hvalid heq)
  · intro o ho e1 he1 hv1 heq
    have h1 := (hothers o ho e1 he1 hv1).2
    rw [heq, hz] at h1
    cases h1

/-- Witness of `Load_exclusive_frames`: with frames 0, 1 held by another
address space and frames 3, 4 also taken, page 1 of the loaded two-page program
holds frame 5. -/
theorem Load_exclusive_frames_witness :
    loadedTwoPages.2.2.pageTable[1]? = some
        { virtualPage := 1, physicalPage := 5, valid := true,
          use := false, dirty := false, readOnly := false } ∧
      marked loadedTwoPages.2.1.machine.usedPhyPage 5 ∧
      (∀ (j : Nat) (e1 : TranslationEntry), loadedTwoPages.2.2.pageTable[j]? = some e1 → j ≠ 1 →
        e1.valid = true → e1.physicalPage ≠ 5) ∧
      (∀ o ∈ [otherSpace], ∀ e1 ∈ o.pageTable, e1.valid = true → e1.physicalPage ≠ 5) :=
  ⟨by decide,
    Load_exclusive_frames stockConfig (fun _ => some ⟨twoPageHeader⟩) "prog"
      (framesTaken stockConfig [0, 1, 3, 4]) loadedTwoPages.2.1 (AddrSpace.ctor stockConfig 0)
      loadedTwoPages.2.2 [otherSpace] (by decide) (by decide) 1
      { virtualPage := 1, physicalPage := 5, valid := true,
        use := false, dirty := false, readOnly := false } (by decide) (by decide)⟩

/-! ## The `virtualPage` field -/

theorem SlotInv_step (cfg : Config) (st0 : State)
    (inFileAddr segmentSize startPage i pageOffset : Int)
    (st : State) (pageTable : List TranslationEntry) (st1 : State)
    (pageTable1 : List TranslationEntry) (hP : SlotInv cfg st0 st pageTable)
    (h : LoadSegmentBody cfg inFileAddr segmentSize startPage i pageOffset st pageTable
      = .ok (st1, pageTable1)) : SlotInv cfg st0 st1 pageTable1 := by
  obtain ⟨hlen, hmono, ⟨written, htr, hall⟩, hfull, hdist⟩ := hP
  obtain ⟨hv, e, he, -, -, -, hcase⟩ := LoadSegmentBody_ok _ _ _ _ _ _ _ _ _ _ h
  rcases hcase with ⟨f, hf, -, hvir, hpt, htrace⟩ | ⟨hnone, s, hs, -, hused, hvir, hpt, htrace⟩
  · have hident : ∀ (k : Nat) (e1 : TranslationEntry), pageTable[k]? = some e1 →
        e1.virtualPage = (k : Int) := by
      intro k e1 hk
      by_contra hne
      have := hfull ⟨k, e1, hk, hne⟩
      rw [hf] at this
      cases this
    have hident1 : ∀ (k : Nat) (e1 : TranslationEntry), pageTable1[k]? = some e1 →
        e1.virtualPage = (k : Int) := by
      intro k e1 hk
      rw [hpt] at hk
      rcases getElem?_set_some hk with ⟨hk0, he1⟩ | ⟨-, hk1⟩
      · subst he1
        rw [← hk0]
        exact hident _ e he
      · exact hident k e1 hk1
    refine ⟨by rw [hvir]; exact hlen, by rw [hvir]; exact hmono,
      ⟨_, by rw [htrace, htr, List.append_assoc], fun k e1 hk => Or.inl (hident1 k e1 hk)⟩,
      ?_, ?_⟩
    · rintro ⟨k, e1, hk, hne⟩
      exact absurd (hident1 k e1 hk) hne
    · intro k j e1 e2 hk _ hne
      exact absurd (hident1 k e1 hk) hne
  · have hclear : st.machine.usedvirPage[s]? = some false := (firstClear_some _ _ _ _ hs).1
    have hslt : s < st.machine.usedvirPage.length := firstClear_lt_length _ _ _ _ hs
    have hfree0 : st0.machine.usedvirPage[s]? = some false := by
      have hs0 : s < st0.machine.usedvirPage.length := by rw [← hlen]; exact hslt
      rw [List.getElem?_eq_getElem hs0]
      cases hb : st0.machine.usedvirPage[s] with
      | false => rfl
      | true =>
        have h1 := hmono s (by rw [List.getElem?_eq_getElem hs0, hb])
        rw [hclear] at h1
        cases h1
    have hkeep : ∀ p : Nat, st.machine.usedvirPage[p]? = some true →
        (st.machine.usedvirPage.set s true)[p]? = some true := by
      intro p hp
      by_cases hsp : s = p
      · subst hsp
        rw [List.getElem?_set_self hslt]
      · rw [List.getElem?_set_ne hsp]
        exact hp
    have hold : ∀ e1 : TranslationEntry,
        HoldsSlot st0.machine.usedvirPage st.machine.usedvirPage written e1 →
        HoldsSlot st0.machine.usedvirPage (st.machine.usedvirPage.set s true)
          (written ++ [.readAt .buffer
            (minIntUnsigned (cfg.PageSize - pageOffset) (toUInt32 (segmentSize - i)))
            (inFileAddr + i), .findSwapPage, .writeSector s]) e1 ∧
        e1.virtualPage ≠ (s : Int) := by
      rintro e1 ⟨h1, h2, h3, h4, h5⟩
      refine ⟨⟨h1, h2, h3, hkeep _ h4, List.mem_append_left _ h5⟩, ?_⟩
      intro heq
      rw [heq, Int.toNat_ofNat, hclear] at h4
      cases h4
    have hnew : HoldsSlot st0.machine.usedvirPage (st.machine.usedvirPage.set s true)
        (written ++ [.readAt .buffer
          (minIntUnsigned (cfg.PageSize - pageOffset) (toUInt32 (segmentSize - i)))
          (inFileAddr + i), .findSwapPage, .writeSector s])
        ({ e with virtualPage := s, valid := false } : TranslationEntry) := by
      refine ⟨rfl, Int.ofNat_nonneg s, ?_, ?_, ?_⟩
      · show st0.machine.usedvirPage[(s : Int).toNat]? = some false
        rw [Int.toNat_ofNat]
        exact hfree0
      · show (st.machine.usedvirPage.set s true)[(s : Int).toNat]? = some true
        rw [Int.toNat_ofNat, List.getElem?_set_self hslt]
      · exact List.mem_append_right _ (by simp)
    unfold SlotInv
    rw [hused, hvir, hpt]
    refine ⟨by rw [List.length_set]; exact hlen, fun p hp => hkeep p (hmono p hp),
      ⟨_, by rw [htrace, htr, List.append_assoc], ?_⟩, fun _ => hnone, ?_⟩
    · intro k e1 hk
      rcases getElem?_set_some hk with ⟨-, he1⟩ | ⟨-, hk1⟩
      · subst he1
        exact Or.inr hnew
      · rcases hall k e1 hk1 with h1 | h1
        · exact Or.inl h1
        · exact Or.inr (hold e1 h1).1
    · intro k j e1 e2 hk hj hne1 hne2 heq
      rcases getElem?_set_some hk with ⟨hk0, he1⟩ | ⟨-, hk1⟩
      · rcases getElem?_set_some hj with ⟨hj0, -⟩ | ⟨-, hj1⟩
        · rw [← hk0, ← hj0]
        · subst he1
          rcases hall j e2 hj1 with h1 | h1
          · exact absurd h1 hne2
          · exact absurd heq.symm (hold e2 h1).2
      · rcases getElem?_set_some hj with ⟨-, he2⟩ | ⟨-, hj1⟩
        · subst he2
          rcases hall k e1 hk1 with h1 | h1
          · exact absurd h1 hne1
          · exact absurd heq (hold e1 h1).2
        · exact hdist k j e1 e2 hk1 hj1 hne1 hne2 heq

theorem SlotInv_unmapped (cfg : Config) (st : State) (n : Nat) :
    SlotInv cfg st st ((List.range n).map unmappedEntry) := by
  have hident : ∀ (k : Nat) (e1 : TranslationEntry),
      ((List.range n).map unmappedEntry)[k]? = some e1 → e1.virtualPage = (k : Int) := by
    intro k e1 hk
    rw [unmappedTable_getElem? n k e1 hk]
    rfl
  refine ⟨rfl, fun _ hp => hp,
    ⟨[], (List.append_nil _).symm, fun k e1 hk => Or.inl (hident k e1 hk)⟩, ?_, ?_⟩
  · rintro ⟨k, e1, hk, hne⟩
    exact absurd (hident k e1 hk) hne
  · intro k j e1 e2 hk _ hne
    exact absurd (hident k e1 hk) hne

/-- A pass of the loop of `LoadSegment` that completes writes `virtualPage` in
its swap branch and nowhere else. -/
theorem LoadSegmentBody_virtualPage (cfg : Config)
    (inFileAddr segmentSize startPage i pageOffset : Int)
    (st st1 : State) (pageTable pageTable1 : List TranslationEntry)
    (h : LoadSegmentBody cfg inFileAddr segmentSize startPage i pageOffset st pageTable
      = .ok (st1, pageTable1)) :
    ((allocatePhysPage cfg st).1 ≠ none ∧
      pageTable1.map (fun e => e.virtualPage) = pageTable.map (fun e => e.virtualPage)) ∨
    ((allocatePhysPage cfg st).1 = none ∧
      ∃ (swapPage : Nat) (st2 : State) (e : TranslationEntry),
        allocateSwapPage cfg st = some (swapPage, st2) ∧
        st1.machine.usedvirPage = st2.machine.usedvirPage ∧
        pageTable[(startPage + Int.tdiv i cfg.PageSize).toNat]? = some e ∧
        pageTable1 = pageTable.set (startPage + Int.tdiv i cfg.PageSize).toNat
          { e with virtualPage := swapPage, valid := false }) := by
  obtain ⟨-, e, he, -, -, -, hcase⟩ := LoadSegmentBody_ok _ _ _ _ _ _ _ _ _ _ h
  rcases hcase with ⟨f, hf, -, -, hpt, -⟩ | ⟨hnone, s, hs, -, -, hvir, hpt, -⟩
  · left
    refine ⟨by simp [allocatePhysPage, hf], ?_⟩
    rw [hpt]
    apply List.ext_getElem?
    intro k
    rw [List.getElem?_map, List.getElem?_map, List.getElem?_set]
    by_cases hk : (startPage + Int.tdiv i cfg.PageSize).toNat = k
    · rw [if_pos hk, ← hk, he]
      by_cases hl : (startPage + Int.tdiv i cfg.PageSize).toNat < pageTable.length
      · rw [if_pos hl]
        rfl
      · rw [List.getElem?_eq_none (by omega)] at he
        cases he
    · rw [if_neg hk]
  · right
    refine ⟨by simp [allocatePhysPage, hnone], s, st.setUsedvirPage s, e, ?_, ?_, he, hpt⟩
    · simp [allocateSwapPage, FindSwapPage, hs]
    · rw [hvir]
      rfl

/-- C5, as amended. After a `Load` that returns `TRUE`, every valid entry `i` of
the page table has `virtualPage = i`. An entry with another value there was
placed in swap by this `Load`: it is not valid, and its `virtualPage` is a swap
slot that was free before the `Load`, is marked after it, and is the sector of a
`WriteSector` this `Load` issued; no other entry placed in swap holds the same
slot. And `virtualPage` is written in the swap branch of `LoadSegment` only: a
pass that finds a free frame changes no `virtualPage` field, a pass that finds
none stores the slot `FindSwapPage` returned, which it marks, in the entry of
the page being loaded. -/
theorem Load_virtualPage (cfg : Config) (fileSystem : String → Option OpenFile)
    (fileName : String) (st st1 : State) (space space1 : AddrSpace)
    (hload : Load cfg fileSystem fileName st space = .ok (true, st1, space1))
    (i : Nat) (e : TranslationEntry) (hentry : space1.pageTable[i]? = some e) :
    (e.valid = true → e.virtualPage = (i : Int)) ∧
    (e.virtualPage = (i : Int) ∨
      HoldsSlot st.machine.usedvirPage st1.machine.usedvirPage
        (st1.trace.drop st.trace.length) e) ∧
    (∀ (j : Nat) (e1 : TranslationEntry), space1.pageTable[j]? = some e1 → j ≠ i →
      e.virtualPage ≠ (i : Int) → e1.virtualPage ≠ (j : Int) →
      e1.virtualPage ≠ e.virtualPage) ∧
    (∀ (inFileAddr segmentSize startPage k pageOffset : Int) (s0 s1 : State)
      (pageTable pageTable1 : List TranslationEntry),
      LoadSegmentBody cfg inFileAddr segmentSize startPage k pageOffset s0 pageTable
        = .ok (s1, pageTable1) →
      ((allocatePhysPage cfg s0).1 ≠ none ∧
        pageTable1.map (fun e1 => e1.virtualPage)
          = pageTable.map (fun e1 => e1.virtualPage)) ∨
      ((allocatePhysPage cfg s0).1 = none ∧
        ∃ (swapPage : Nat) (s2 : State) (e0 : TranslationEntry),
          allocateSwapPage cfg s0 = some (swapPage, s2) ∧
          s1.machine.usedvirPage = s2.machine.usedvirPage ∧
          pageTable[(startPage + Int.tdiv k cfg.PageSize).toNat]? = some e0 ∧
          pageTable1 = pageTable.set (startPage + Int.tdiv k cfg.PageSize).toNat
            { e0 with virtualPage := swapPage, valid := false })) := by
  obtain ⟨executable, st2, pageTable1, -, -, hsegs, hst1, hspace1⟩ :=
    Load_ok_true _ _ _ _ _ _ _ hload
  have hinv : SlotInv cfg { st with openFiles := st.openFiles + 1 } st2 pageTable1 :=
    loadSegments_invariant cfg _ (SlotInv cfg { st with openFiles := st.openFiles + 1 })
      (fun _ _ _ _ _ _ _ _ _ hP hb => SlotInv_step cfg _ _ _ _ _ _ _ _ _ _ hP hb)
      _ _ _ _ (SlotInv_unmapped cfg _ _) hsegs
  subst hst1 hspace1
  obtain ⟨-, -, ⟨written, htr, hall⟩, -, hdist⟩ := hinv
  have hdrop : st2.trace.drop st.trace.length = written := by
    rw [htr]
    exact List.drop_left _ _
  have h1 : e.virtualPage = (i : Int) ∨
      HoldsSlot st.machine.usedvirPage st2.machine.usedvirPage
        (st2.trace.drop st.trace.length) e := by
    rw [hdrop]
    exact hall i e hentry
  refine ⟨?_, h1, ?_, fun _ _ _ _ _ _ _ _ _ hb => LoadSegmentBody_virtualPage _ _ _ _ _ _ _ _ _ _ hb⟩
  · intro hvalid
    rcases h1 with h2 | ⟨h2, -⟩
    · exact h2
    · rw [hvalid] at h2
      cases h2
  · intro j e1 hj hji hne hne1 heq
    exact hji (hdist j i e1 e hj hentry hne1 hne heq)

/-- Witness of `Load_virtualPage`: with every frame taken and swap slot 0
taken, page 0 of the two-page program is placed in swap slot 1, which was free
before, is marked afterwards and was written to the swap device; page 1 is
placed in another slot. -/
theorem Load_virtualPage_witness :
    loadedInSwap.2.2.pageTable[0]? = some
        { virtualPage := 1, physicalPage := -1, valid := false,
          use := false, dirty := false, readOnly := false } ∧
      (swapOnlyState stockConfig).machine.usedvirPage[1]? = some false ∧
      loadedInSwap.2.1.machine.usedvirPage[1]? = some true ∧
      Event.writeSector 1 ∈
        loadedInSwap.2.1.trace.drop (swapOnlyState stockConfig).trace.length ∧
      ((1 : Int) = ((0 : Nat) : Int) ∨
        HoldsSlot (swapOnlyState stockConfig).machine.usedvirPage
          loadedInSwap.2.1.machine.usedvirPage
          (loadedInSwap.2.1.trace.drop (swapOnlyState stockConfig).trace.length)
          { virtualPage := 1, physicalPage := -1, valid := false,
            use := false, dirty := false, readOnly := false }) ∧
      (∀ (j : Nat) (e1 : TranslationEntry), loadedInSwap.2.2.pageTable[j]? = some e1 →
        j ≠ 0 → (1 : Int) ≠ ((0 : Nat) : Int) → e1.virtualPage ≠ (j : Int) →
        e1.virtualPage ≠ 1) :=
  ⟨by decide, by decide, by decide, by decide,
    (Load_virtualPage stockConfig (fun _ => some ⟨twoPageHeader⟩) "prog"
      (swapOnlyState stockConfig) loadedInSwap.2.1 (AddrSpace.ctor stockConfig 0)
      loadedInSwap.2.2 (by decide) 0
      { virtualPage := 1, physicalPage := -1, valid := false,
        use := false, dirty := false, readOnly := false } (by decide)).2.1,
    (Load_virtualPage stockConfig (fun _ => some ⟨twoPageHeader⟩) "prog"
      (swapOnlyState stockConfig) loadedInSwap.2.1 (AddrSpace.ctor stockConfig 0)
      loadedInSwap.2.2 (by decide) 0
      { virtualPage := 1, physicalPage := -1, valid := false,
        use := false, dirty := false, readOnly := false } (by decide)).2.2.1⟩

/-- C5, counterexample. With every frame taken and swap slot 0 taken, `Load`
of the two-page program returns `TRUE` with `virtualPage = 1` in entry 0 and
`virtualPage = 2` in entry 1: `LoadSegment` wrote the swap slots there. -/
theorem Load_virtualPage_overwritten :
    ((Load stockConfig (fun _ => some ⟨twoPageHeader⟩) "prog"
        (swapOnlyState stockConfig) (AddrSpace.ctor stockConfig 0)).result?.map
          (fun r => (r.1, r.2.2.pageTable.map (fun e => e.virtualPage))))
      = some (true, [1, 2, 2, 3, 4, 5, 6, 7, 8, 9]) ∧
    ((Load stockConfig (fun _ => some ⟨twoPageHeader⟩) "prog"
        (swapOnlyState stockConfig) (AddrSpace.ctor stockConfig 0)).result?.map
          (fun r => r.2.2.pageTable[0]?))
      = some (some ({ unmappedEntry 0 with virtualPage := 1 } : TranslationEntry)) := by
  decide

/-! ## Counting free entries -/

theorem firstClear_of_freeCount_pos (cfg : Config) (used : List Bool)
    (h : 0 < freeCount cfg used) : ∃ f, firstClear used cfg.NumPhysPages 0 = some f := by
  cases hf : firstClear used cfg.NumPhysPages 0 with
  | some f => exact ⟨f, rfl⟩
  | none =>
    have := (firstClear_eq_none_iff _ _ _).1 hf
    unfold freeCount at h
    omega

/-! ## Forward computation of one pass -/

theorem setBits_set (used : List Bool) (f : Nat) (h : used[f]? = some false) :
    setBits (used.set f true) = setBits used + 1 := by
  have hlt : f < used.length := by
    by_contra hn
    rw [List.getElem?_eq_none (by omega)] at h
    cases h
  have hf : used[f] = false := by
    rw [List.getElem?_eq_getElem hlt] at h
    exact Option.some.inj h
  unfold setBits
  rw [List.count_set _ _ _ _ hlt, hf]
  simp

theorem validCount_set (pageTable : List TranslationEntry) (v : Nat) (e e1 : TranslationEntry)
    (h : pageTable[v]? = some e) (hvalid : e.valid = false) :
    validCount (pageTable.set v e1) = validCount pageTable + (if e1.valid then 1 else 0) := by
  have hlt : v < pageTable.length := by
    by_contra hn
    rw [List.getElem?_eq_none (by omega)] at h
    cases h
  have hv : pageTable[v] = e := by
    rw [List.getElem?_eq_getElem hlt] at h
    exact Option.some.inj h
  unfold validCount
  rw [List.countP_set _ _ _ _ hlt, hv, hvalid]
  simp

theorem sectorsWritten_append_read (trace : List Event) (into : ReadTarget)
    (numBytes position : Int) :
    sectorsWritten (trace ++ [.readAt into numBytes position]) = sectorsWritten trace := by
  unfold sectorsWritten
  rw [List.countP_append]
  rfl

theorem sectorsWritten_append_swap (trace : List Event) (numBytes position sector : Int) :
    sectorsWritten (trace ++ [.readAt .buffer numBytes position, .findSwapPage,
      .writeSector sector]) = sectorsWritten trace + 1 := by
  unfold sectorsWritten
  rw [List.countP_append]
  rfl

theorem LoadSegmentLoop_counts (cfg : Config) (inFileAddr segmentSize startPage : Int)
    (fuel : Nat) : ∀ (k : Nat) (pageOffset : Int) (st st1 : State)
      (pageTable pageTable1 : List TranslationEntry),
      LoadSegmentLoop cfg inFileAddr segmentSize startPage fuel ((k : Int) * cfg.PageSize)
        pageOffset st pageTable = .ok (st1, pageTable1) →
      (∀ k1 : Nat, k ≤ k1 → (k1 : Int) * cfg.PageSize < segmentSize →
        ∀ e, 0 ≤ startPage + k1 → pageTable[(startPage + k1).toNat]? = some e →
          e.valid = false) →
      setBits st1.machine.usedPhyPage + validCount pageTable
          = setBits st.machine.usedPhyPage + validCount pageTable1 ∧
        setBits st1.machine.usedvirPage + sectorsWritten st.trace
          = setBits st.machine.usedvirPage + sectorsWritten st1.trace ∧
        (∀ idx : Nat,
          (∀ k1 : Nat, k ≤ k1 → (k1 : Int) * cfg.PageSize < segmentSize →
            (idx : Int) ≠ startPage + k1) →
          pageTable1[idx]? = pageTable[idx]?) := by
  induction fuel with
  | zero =>
    intro k pageOffset st st1 pageTable pageTable1 h _
    simp only [LoadSegmentLoop, Outcome.ok.injEq, Prod.mk.injEq] at h
    obtain ⟨h1, h2⟩ := h
    subst h1 h2
    exact ⟨rfl, rfl, fun _ _ => rfl⟩
  | succ fuel ih =>
    intro k pageOffset st st1 pageTable pageTable1 h hfresh
    have hP : (0 : Int) < cfg.PageSize := by exact_mod_cast cfg.PageSize_pos
    unfold LoadSegmentLoop at h
    by_cases hi : (k : Int) * cfg.PageSize < segmentSize
    · rw [if_pos hi] at h
      cases hb : LoadSegmentBody cfg inFileAddr segmentSize startPage
          ((k : Int) * cfg.PageSize) pageOffset st pageTable with
      | abort s => simp [hb] at h
      | undefined => simp [hb] at h
      | ok r =>
        obtain ⟨st2, pageTable2⟩ := r
        simp only [hb] at h
        have hnext : (k : Int) * cfg.PageSize + cfg.PageSize
            = ((k + 1 : Nat) : Int) * cfg.PageSize := by
          push_cast
          ring
        rw [hnext] at h
        obtain ⟨hv, e, he, -, -, -, hcase⟩ := LoadSegmentBody_ok _ _ _ _ _ _ _ _ _ _ hb
        rw [Int.mul_tdiv_cancel _ (ne_of_gt hP)] at hv he hcase
        have hinvalid : e.valid = false := hfresh k (Nat.le_refl k) hi e hv he
        have hrest : ∀ (a : TranslationEntry) (k1 : Nat), k + 1 ≤ k1 →
            (k1 : Int) * cfg.PageSize < segmentSize →
            ∀ e1, 0 ≤ startPage + k1 →
              (pageTable.set (startPage + k).toNat a)[(startPage + k1).toNat]? = some e1 →
              e1.valid = false := by
          intro a k1 hk1 hlt e1 h0 he1
          rw [List.getElem?_set_ne (by omega)] at he1
          exact hfresh k1 (by omega) hlt e1 h0 he1
        have hidx : ∀ (a : TranslationEntry) (idx : Nat),
            (∀ k1 : Nat, k ≤ k1 → (k1 : Int) * cfg.PageSize < segmentSize →
              (idx : Int) ≠ startPage + k1) →
            (pageTable.set (startPage + k).toNat a)[idx]? = pageTable[idx]? := by
          intro a idx hne
          have := hne k (Nat.le_refl k) hi
          rw [List.getElem?_set_ne (by omega)]
        rcases hcase with ⟨f, hf, hphys, hvir, hpt, htrace⟩ |
          ⟨-, s, hs, -, hphys, hvir, hpt, htrace⟩
        · subst hpt
          obtain ⟨c1, c2, c3⟩ := ih (k + 1) 0 st2 st1 _ pageTable1 h (hrest _)
          have hbits := setBits_set _ _ (firstClear_some _ _ _ _ hf).1
          have hcount := validCount_set pageTable _ e
            { e with physicalPage := f, valid := true } he hinvalid
          simp only [if_true] at hcount
          rw [hphys, hbits] at c1
          rw [hvir, htrace] at c2
          rw [hcount] at c1
          rw [sectorsWritten_append_read] at c2
          refine ⟨by omega, c2, ?_⟩
          · intro idx hne
            rw [c3 idx (fun k1 hk1 hlt => hne k1 (by omega) hlt), hidx _ idx hne]
        · subst hpt
          obtain ⟨c1, c2, c3⟩ := ih (k + 1) 0 st2 st1 _ pageTable1 h (hrest _)
          have hbits := setBits_set _ _ (firstClear_some _ _ _ _ hs).1
          have hcount := validCount_set pageTable _ e
            { e with virtualPage := s, valid := false } he hinvalid
          simp only [Bool.false_eq_true, if_false, Nat.add_zero] at hcount
          rw [hphys] at c1
          rw [hvir, hbits, htrace] at c2
          rw [hcount] at c1
          rw [sectorsWritten_append_swap] at c2
          refine ⟨c1, by omega, ?_⟩
          · intro idx hne
            rw [c3 idx (fun k1 hk1 hlt => hne k1 (by omega) hlt), hidx _ idx hne]
    · rw [if_neg hi] at h
      simp only [Outcome.ok.injEq, Prod.mk.injEq] at h
      obtain ⟨h1, h2⟩ := h
      subst h1 h2
      exact ⟨rfl, rfl, fun _ _ => rfl⟩

theorem LoadSegment_counts (cfg : Config) (inFileAddr segmentSize virtualAddr : Int)
    (st st1 : State) (pageTable pageTable1 : List TranslationEntry)
    (h : LoadSegment cfg inFileAddr segmentSize virtualAddr st pageTable
      = .ok (st1, pageTable1))
    (hfresh : ∀ k1 : Nat, (k1 : Int) * cfg.PageSize < segmentSize →
      ∀ e, 0 ≤ Int.tdiv virtualAddr cfg.PageSize + k1 →
        pageTable[(Int.tdiv virtualAddr cfg.PageSize + k1).toNat]? = some e →
        e.valid = false) :
    setBits st1.machine.usedPhyPage + validCount pageTable
        = setBits st.machine.usedPhyPage + validCount pageTable1 ∧
      setBits st1.machine.usedvirPage + sectorsWritten st.trace
        = setBits st.machine.usedvirPage + sectorsWritten st1.trace ∧
      (∀ idx : Nat,
        (∀ k1 : Nat, (k1 : Int) * cfg.PageSize < segmentSize →
          (idx : Int) ≠ Int.tdiv virtualAddr cfg.PageSize + k1) →
        pageTable1[idx]? = pageTable[idx]?) := by
  unfold LoadSegment at h
  have h0 : (0 : Int) = ((0 : Nat) : Int) * cfg.PageSize := by simp
  rw [h0] at h
  obtain ⟨c1, c2, c3⟩ := LoadSegmentLoop_counts cfg _ _ _ _ 0 _ st st1 pageTable pageTable1 h
    (fun k1 _ hlt e hv he => hfresh k1 hlt e hv he)
  exact ⟨c1, c2, fun idx hne => c3 idx (fun k1 _ hlt => hne k1 hlt)⟩

theorem loadSegments_counts (cfg : Config) (noffH : NoffHeader) (st st1 : State)
    (pageTable pageTable1 : List TranslationEntry)
    (h : loadSegments cfg noffH st pageTable = .ok (st1, pageTable1))
    (hshare : segmentsShareNoPage cfg noffH)
    (hinit : ∀ (i : Nat) (e : TranslationEntry), pageTable[i]? = some e → e.valid = false) :
    setBits st1.machine.usedPhyPage + validCount pageTable
        = setBits st.machine.usedPhyPage + validCount pageTable1 ∧
      setBits st1.machine.usedvirPage + sectorsWritten st.trace
        = setBits st.machine.usedvirPage + sectorsWritten st1.trace := by
  have hP : (0 : Int) < cfg.PageSize := by exact_mod_cast cfg.PageSize_pos
  have hbound : ∀ (k : Nat) (size : Int), (k : Int) * cfg.PageSize < size → k < size.toNat := by
    intro k size hlt
    have h1 : (k : Int) ≤ (k : Int) * cfg.PageSize :=
      le_mul_of_one_le_right (Int.ofNat_nonneg k) (by omega)
    omega
  unfold loadSegments at h
  by_cases hc : toInt32 noffH.code.size > 0
  · rw [if_pos hc] at h
    cases hcode : LoadSegment cfg (toInt32 noffH.code.inFileAddr) (toInt32 noffH.code.size)
        (toInt32 noffH.code.virtualAddr) st pageTable with
    | abort s => simp [hcode] at h
    | undefined => simp [hcode] at h
    | ok r =>
      obtain ⟨st2, pageTable2⟩ := r
      simp only [hcode] at h
      obtain ⟨c1, c2, c3⟩ := LoadSegment_counts cfg _ _ _ _ _ _ _ hcode
        (fun k1 _ e _ he => hinit _ e he)
      by_cases hd : toInt32 noffH.initData.size > 0
      · rw [if_pos hd] at h
        obtain ⟨d1, d2, -⟩ := LoadSegment_counts cfg _ _ _ _ _ _ _ h (by
          intro k1 hlt e hv he
          rw [c3 _ (by
            intro k hk heq
            have hcast : (((Int.tdiv (toInt32 noffH.initData.virtualAddr) cfg.PageSize
                + k1).toNat : Nat) : Int)
                = Int.tdiv (toInt32 noffH.initData.virtualAddr) cfg.PageSize + k1 :=
              Int.toNat_of_nonneg hv
            rw [hcast] at heq
            exact hshare k (hbound k _ hk) k1 (hbound k1 _ hlt) hk hlt heq.symm)] at he
          exact hinit _ e he)
        exact ⟨by omega, by omega⟩
      · rw [if_neg hd] at h
        simp only [Outcome.ok.injEq, Prod.mk.injEq] at h
        obtain ⟨h1, h2⟩ := h
        subst h1 h2
        exact ⟨c1, c2⟩
  · rw [if_neg hc] at h
    simp only at h
    by_cases hd : toInt32 noffH.initData.size > 0
    · rw [if_pos hd] at h
      obtain ⟨d1, d2, -⟩ := LoadSegment_counts cfg _ _ _ _ _ _ _ h
        (fun k1 _ e _ he => hinit _ e he)
      exact ⟨d1, d2⟩
    · rw [if_neg hd] at h
      simp only [Outcome.ok.injEq, Prod.mk.injEq] at h
      obtain ⟨h1, h2⟩ := h
      subst h1 h2
      exact ⟨rfl, rfl⟩

theorem validCount_unmapped (n : Nat) : validCount ((List.range n).map unmappedEntry) = 0 := by
  unfold validCount
  rw [List.countP_eq_zero]
  intro e he
  obtain ⟨i, -, rfl⟩ := List.mem_map.1 he
  simp [unmappedEntry]

theorem validCount_identity (n : Nat) : validCount ((List.range n).map identityEntry) = n := by
  unfold validCount
  rw [List.countP_eq_length.2]
  · simp
  · intro e he
    obtain ⟨i, -, rfl⟩ := List.mem_map.1 he
    rfl

/-- C2, as amended. Construction sets no bit of either bitmap (it does not touch
the state at all) and creates `NumPhysPages` valid entries.  A `Load` that
returns `TRUE` and whose code and initialized-data segments share no page,
started in a state whose physical bitmap has as many set bits as the other live
address spaces have valid entries, ends in a state whose physical bitmap has as
many set bits as those address spaces and the new page table together have valid
entries; and the number of set bits of the swap bitmap has grown by the number
of pages this `Load` wrote to swap (the two sums of the last equation). -/
theorem Load_preserves_counts (cfg : Config) (fileSystem : String → Option OpenFile)
    (fileName : String) (executable : OpenFile) (st st1 : State) (space space1 : AddrSpace)
    (others : List AddrSpace) (numPages0 : Nat)
    (hopen : fileSystem fileName = some executable)
    (hshare : segmentsShareNoPage cfg (repairHeader cfg executable.noffH))
    (hload : Load cfg fileSystem fileName st space = .ok (true, st1, space1))
    (hphys : setBits st.machine.usedPhyPage = validEntries others) :
    validCount (AddrSpace.ctor cfg numPages0).pageTable = cfg.NumPhysPages ∧
    setBits st1.machine.usedPhyPage = validEntries (space1 :: others) ∧
    setBits st1.machine.usedvirPage + sectorsWritten st.trace
      = setBits st.machine.usedvirPage + sectorsWritten st1.trace := by
  obtain ⟨executable1, st2, pageTable1, hopen1, -, hsegs, hst1, hspace1⟩ :=
    Load_ok_true _ _ _ _ _ _ _ hload
  rw [hopen] at hopen1
  cases hopen1
  obtain ⟨c1, c2⟩ := loadSegments_counts cfg _ _ _ _ _ hsegs hshare (by
    intro i e he
    rw [unmappedTable_getElem? _ i e he]
    rfl)
  rw [validCount_unmapped] at c1
  have c1a : setBits st2.machine.usedPhyPage + 0
      = setBits st.machine.usedPhyPage + validCount pageTable1 := c1
  have c2a : setBits st2.machine.usedvirPage + sectorsWritten st.trace
      = setBits st.machine.usedvirPage + sectorsWritten st2.trace := c2
  subst hst1 hspace1
  refine ⟨validCount_identity _, ?_, ?_⟩
  · show setBits st2.machine.usedPhyPage
      = validEntries ({ pageTable := pageTable1, numPages := _ } :: others)
    simp only [validEntries, List.map_cons, List.sum_cons] at hphys ⊢
    omega
  · exact c2a

set_option maxRecDepth 4096 in
/-- Witness of `Load_preserves_counts`: the two-page program is loaded beside
an address space that holds frames 0 and 1. -/
theorem Load_preserves_counts_witness :
    validCount (AddrSpace.ctor stockConfig 0).pageTable = stockConfig.NumPhysPages ∧
    setBits loadedBesideOther.2.1.machine.usedPhyPage
      = validEntries (loadedBesideOther.2.2 :: [otherSpace]) ∧
    setBits loadedBesideOther.2.1.machine.usedvirPage
        + sectorsWritten (framesTaken stockConfig [0, 1]).trace
      = setBits (framesTaken stockConfig [0, 1]).machine.usedvirPage
        + sectorsWritten loadedBesideOther.2.1.trace :=
  Load_preserves_counts stockConfig (fun _ => some ⟨twoPageHeader⟩) "prog" ⟨twoPageHeader⟩
    (framesTaken stockConfig [0, 1]) loadedBesideOther.2.1 (AddrSpace.ctor stockConfig 0)
    loadedBesideOther.2.2 [otherSpace] 0 rfl (by decide) (by decide) (by decide)

/-- C2, counterexample. With no live address space and no bit set, the physical
bitmap has as many set bits (0) as there are valid entries (0).  Constructing
an address space sets no bit and creates 32 valid entries: afterwards the
bitmap still has 0 set bits and the live address spaces have 32 valid entries. -/
theorem ctor_breaks_count :
    setBits (freshState stockConfig false).machine.usedPhyPage = validEntries [] ∧
    setBits (freshState stockConfig false).machine.usedPhyPage = 0 ∧
    validEntries [AddrSpace.ctor stockConfig 0] = 32 ∧
    setBits (freshState stockConfig false).machine.usedPhyPage
      ≠ validEntries [AddrSpace.ctor stockConfig 0] := by
  decide

/-! ## First fit -/

theorem firstClear_least (used : List Bool) (remaining j0 f : Nat)
    (h : firstClear used remaining j0 = some f) :
    ∀ j, j0 ≤ j → j < f → used[j]? ≠ some false := by
  induction remaining generalizing j0 with
  | zero => simp [firstClear] at h
  | succ r ih =>
    unfold firstClear at h
    by_cases hj : used[j0]? = some false
    · rw [if_pos hj] at h
      have hjf : j0 = f := by injection h
      intro j h1 h2
      omega
    · rw [if_neg hj] at h
      intro j h1 h2
      by_cases hjj : j = j0
      · rw [hjj]
        exact hj
      · exact ih (j0 + 1) h j (by omega) h2

theorem firstFit_set (used : List Bool) (f : Nat) (hf : used[f]? = some false) :
    (used.set f true)[f]? = some true ∧ ∀ j, j ≠ f → (used.set f true)[j]? = used[j]? := by
  have hlt : f < used.length := by
    by_contra hn
    rw [List.getElem?_eq_none (by omega)] at hf
    cases hf
  refine ⟨List.getElem?_set_self hlt, ?_⟩
  intro j hj
  exact List.getElem?_set_ne (fun h => hj h.symm)

/-- C11. When the physical bitmap has a clear bit, the allocation step of
`LoadSegment` takes the lowest-numbered clear bit, sets that bit and changes no
other bit of either bitmap; when the swap bitmap has a clear bit, `FindSwapPage`
followed by the marking does the same on the swap bitmap. -/
theorem first_fit_allocation (cfg : Config) (st : State) :
    (0 < freeCount cfg st.machine.usedPhyPage →
      ∃ f, allocatePhysPage cfg st = (some f, st.setUsedPhyPage f) ∧
        f < cfg.NumPhysPages ∧ st.machine.usedPhyPage[f]? = some false ∧
        (∀ j, j < f → st.machine.usedPhyPage[j]? ≠ some false) ∧
        (st.setUsedPhyPage f).machine.usedPhyPage[f]? = some true ∧
        (∀ j, j ≠ f →
          (st.setUsedPhyPage f).machine.usedPhyPage[j]? = st.machine.usedPhyPage[j]?) ∧
        (st.setUsedPhyPage f).machine.usedvirPage = st.machine.usedvirPage) ∧
    (0 < freeCount cfg st.machine.usedvirPage →
      ∃ s, allocateSwapPage cfg st = some (s, st.setUsedvirPage s) ∧
        s < cfg.NumPhysPages ∧ st.machine.usedvirPage[s]? = some false ∧
        (∀ j, j < s → st.machine.usedvirPage[j]? ≠ some false) ∧
        (st.setUsedvirPage s).machine.usedvirPage[s]? = some true ∧
        (∀ j, j ≠ s →
          (st.setUsedvirPage s).machine.usedvirPage[j]? = st.machine.usedvirPage[j]?) ∧
        (st.setUsedvirPage s).machine.usedPhyPage = st.machine.usedPhyPage) := by
  constructor
  · intro hfree
    obtain ⟨f, hf⟩ := firstClear_of_freeCount_pos cfg _ hfree
    obtain ⟨h1, -, h3⟩ := firstClear_some _ _ _ _ hf
    obtain ⟨h4, h5⟩ := firstFit_set _ _ h1
    refine ⟨f, ?_, by omega, h1, fun j hj => firstClear_least _ _ _ _ hf j (Nat.zero_le j) hj,
      h4, h5, rfl⟩
    unfold allocatePhysPage
    rw [hf]
  · intro hfree
    obtain ⟨s, hs⟩ := firstClear_of_freeCount_pos cfg _ hfree
    obtain ⟨h1, -, h3⟩ := firstClear_some _ _ _ _ hs
    obtain ⟨h4, h5⟩ := firstFit_set _ _ h1
    refine ⟨s, ?_, by omega, h1, fun j hj => firstClear_least _ _ _ _ hs j (Nat.zero_le j) hj,
      h4, h5, rfl⟩
    unfold allocateSwapPage FindSwapPage
    rw [hs]

/-- A pass of the loop of `LoadSegment` that completes has changed the bitmaps
by these allocation steps and by nothing else. -/
theorem LoadSegmentBody_allocates (cfg : Config)
    (inFileAddr segmentSize startPage i pageOffset : Int)
    (st st1 : State) (pageTable pageTable1 : List TranslationEntry)
    (h : LoadSegmentBody cfg inFileAddr segmentSize startPage i pageOffset st pageTable
      = .ok (st1, pageTable1)) :
    st1.machine.usedPhyPage = (allocatePhysPage cfg st).2.machine.usedPhyPage ∧
    (((allocatePhysPage cfg st).1 ≠ none ∧
        st1.machine.usedvirPage = st.machine.usedvirPage) ∨
      ((allocatePhysPage cfg st).1 = none ∧
        ∃ r, allocateSwapPage cfg st = some r ∧
          st1.machine.usedvirPage = r.2.machine.usedvirPage)) := by
  obtain ⟨-, e, -, -, -, -, hcase⟩ := LoadSegmentBody_ok _ _ _ _ _ _ _ _ _ _ h
  rcases hcase with ⟨f, hf, hphys, hvir, -, -⟩ | ⟨hnone, s, hs, -, hphys, hvir, -, -⟩
  · unfold allocatePhysPage
    rw [hf]
    exact ⟨hphys, Or.inl ⟨by simp, hvir⟩⟩
  · unfold allocatePhysPage allocateSwapPage FindSwapPage
    rw [hnone, hs]
    exact ⟨hphys, Or.inr ⟨rfl, _, rfl, hvir⟩⟩

/-- Witness of `first_fit_allocation`: with frames 0, 1, 3, 4 taken the frame
allocated is 2; with every swap slot free the slot allocated is 0. -/
theorem first_fit_allocation_witness :
    (∃ f, allocatePhysPage stockConfig (framesTaken stockConfig [0, 1, 3, 4])
        = (some f, (framesTaken stockConfig [0, 1, 3, 4]).setUsedPhyPage f) ∧
      f < stockConfig.NumPhysPages ∧
      (framesTaken stockConfig [0, 1, 3, 4]).machine.usedPhyPage[f]? = some false ∧
      (∀ j, j < f → (framesTaken stockConfig [0, 1, 3, 4]).machine.usedPhyPage[j]? ≠ some false) ∧
      ((framesTaken stockConfig [0, 1, 3, 4]).setUsedPhyPage f).machine.usedPhyPage[f]?
        = some true ∧
      (∀ j, j ≠ f →
        ((framesTaken stockConfig [0, 1, 3, 4]).setUsedPhyPage f).machine.usedPhyPage[j]?
          = (framesTaken stockConfig [0, 1, 3, 4]).machine.usedPhyPage[j]?) ∧
      ((framesTaken stockConfig [0, 1, 3, 4]).setUsedPhyPage f).machine.usedvirPage
        = (framesTaken stockConfig [0, 1, 3, 4]).machine.usedvirPage) ∧
    (∃ s, allocateSwapPage stockConfig (framesTaken stockConfig [0, 1, 3, 4])
        = some (s, (framesTaken stockConfig [0, 1, 3, 4]).setUsedvirPage s) ∧
      s < stockConfig.NumPhysPages ∧
      (framesTaken stockConfig [0, 1, 3, 4]).machine.usedvirPage[s]? = some false ∧
      (∀ j, j < s → (framesTaken stockConfig [0, 1, 3, 4]).machine.usedvirPage[j]? ≠ some false) ∧
      ((framesTaken stockConfig [0, 1, 3, 4]).setUsedvirPage s).machine.usedvirPage[s]?
        = some true ∧
      (∀ j, j ≠ s →
        ((framesTaken stockConfig [0, 1, 3, 4]).setUsedvirPage s).machine.usedvirPage[j]?
          = (framesTaken stockConfig [0, 1, 3, 4]).machine.usedvirPage[j]?) ∧
      ((framesTaken stockConfig [0, 1, 3, 4]).setUsedvirPage s).machine.usedPhyPage
        = (framesTaken stockConfig [0, 1, 3, 4]).machine.usedPhyPage) ∧
    allocatePhysPage stockConfig (framesTaken stockConfig [0, 1, 3, 4])
      = (some 2, (framesTaken stockConfig [0, 1, 3, 4]).setUsedPhyPage 2) ∧
    allocateSwapPage stockConfig (framesTaken stockConfig [0, 1, 3, 4])
      = some (0, (framesTaken stockConfig [0, 1, 3, 4]).setUsedvirPage 0) :=
  ⟨(first_fit_allocation stockConfig (framesTaken stockConfig [0, 1, 3, 4])).1 (by decide),
    (first_fit_allocation stockConfig (framesTaken stockConfig [0, 1, 3, 4])).2 (by decide),
    by decide, by decide⟩

/-! ## Register initialisation -/

theorem toInt32_toUInt32 (x : Int) (hlo : -2147483648 ≤ x) (hhi : x < 2147483648) :
    toInt32 (toUInt32 x) = x := by
  unfold toInt32 toUInt32
  split <;> omega

theorem WriteRegister_registers (st : State) (num : Nat) (value : Int) :
    (WriteRegister st num value).machine.registers = st.machine.registers.set num value ∧
    (WriteRegister st num value).machine.usedPhyPage = st.machine.usedPhyPage ∧
    (WriteRegister st num value).machine.usedvirPage = st.machine.usedvirPage ∧
    (WriteRegister st num value).machine.pageTable = st.machine.pageTable ∧
    (WriteRegister st num value).machine.pageTableSize = st.machine.pageTableSize :=
  ⟨rfl, rfl, rfl, rfl, rfl⟩

theorem zeroRegisters_length (remaining : Nat) : ∀ (i : Nat) (st : State),
    (zeroRegisters remaining i st).machine.registers.length = st.machine.registers.length := by
  induction remaining with
  | zero => intro i st; rfl
  | succ r ih =>
    intro i st
    unfold zeroRegisters
    rw [ih]
    simp [WriteRegister]

theorem zeroRegisters_getElem? (remaining : Nat) : ∀ (i : Nat) (st : State) (r : Nat),
    r < st.machine.registers.length →
    (zeroRegisters remaining i st).machine.registers[r]?
      = if i ≤ r ∧ r < i + remaining then some 0 else st.machine.registers[r]? := by
  induction remaining with
  | zero =>
    intro i st r _
    rw [if_neg (by omega)]
    rfl
  | succ n ih =>
    intro i st r hr
    unfold zeroRegisters
    rw [ih (i + 1) (WriteRegister st i 0) r (by simpa [WriteRegister] using hr)]
    by_cases h1 : i + 1 ≤ r ∧ r < i + 1 + n
    · rw [if_pos h1, if_pos (by omega)]
    · rw [if_neg h1]
      by_cases h2 : i = r
      · subst h2
        rw [if_pos (by omega)]
        simp only [WriteRegister]
        exact List.getElem?_set_self hr
      · rw [if_neg (by omega)]
        simp only [WriteRegister]
        exact List.getElem?_set_ne h2

/-- C12, as amended. On a register file of `NumTotalRegs` registers in which the
PC, next-PC and stack registers are three different registers, and for every
`numPages` with `numPages * PageSize - 16` below `2^31`, after `InitRegisters`
the stack register holds `numPages * PageSize - 16`, the PC register holds 0,
the next-PC register holds 4 and every other register holds 0. -/
theorem InitRegisters_registers (cfg : Config) (layout : RegisterLayout) (st : State)
    (space : AddrSpace) (hlayout : layout.WF)
    (hregs : st.machine.registers.length = layout.NumTotalRegs)
    (hrange : (space.numPages : Int) * cfg.PageSize - 16 < 2147483648) :
    (AddrSpace.InitRegisters cfg layout st space).machine.registers[layout.StackReg]?
      = some ((space.numPages : Int) * cfg.PageSize - 16) ∧
    (AddrSpace.InitRegisters cfg layout st space).machine.registers[layout.PCReg]? = some 0 ∧
    (AddrSpace.InitRegisters cfg layout st space).machine.registers[layout.NextPCReg]?
      = some 4 ∧
    (∀ r, r < layout.NumTotalRegs → r ≠ layout.StackReg → r ≠ layout.PCReg →
      r ≠ layout.NextPCReg →
      (AddrSpace.InitRegisters cfg layout st space).machine.registers[r]? = some 0) := by
  obtain ⟨hpc, hnext, hstack, h1, h2, h3⟩ := hlayout
  have hlen := zeroRegisters_length layout.NumTotalRegs 0 st
  have hzero : ∀ r, r < layout.NumTotalRegs →
      (zeroRegisters layout.NumTotalRegs 0 st).machine.registers[r]? = some 0 := by
    intro r hr
    rw [zeroRegisters_getElem? _ _ _ _ (by omega), if_pos (by omega)]
  have hnonneg : (0 : Int) ≤ (space.numPages : Int) * cfg.PageSize :=
    mul_nonneg (Int.ofNat_nonneg _) (Int.ofNat_nonneg _)
  have hsp : initialStackPointer cfg space.numPages
      = (space.numPages : Int) * cfg.PageSize - 16 :=
    toInt32_toUInt32 _ (by omega) hrange
  simp only [AddrSpace.InitRegisters, WriteRegister, hsp]
  refine ⟨?_, ?_, ?_, ?_⟩
  · rw [List.getElem?_set_self (by simp only [List.length_set]; omega)]
  · rw [List.getElem?_set_ne (Ne.symm h2), List.getElem?_set_ne (Ne.symm h1),
      List.getElem?_set_self (by omega)]
  · rw [List.getElem?_set_ne (Ne.symm h3),
      List.getElem?_set_self (by simp only [List.length_set]; omega)]
  · intro r hr hr1 hr2 hr3
    rw [List.getElem?_set_ne (Ne.symm hr1), List.getElem?_set_ne (Ne.symm hr3),
      List.getElem?_set_ne (Ne.symm hr2)]
    exact hzero r hr

/-- Witness of `InitRegisters_registers`: for `numPages = 4` and `PageSize = 128`
the stack register holds 496. -/
theorem InitRegisters_registers_witness :
    (AddrSpace.InitRegisters stockConfig stockLayout staleRegisters
        { pageTable := [], numPages := 4 }).machine.registers[stockLayout.StackReg]?
      = some (((4 : Nat) : Int) * stockConfig.PageSize - 16) ∧
    (AddrSpace.InitRegisters stockConfig stockLayout staleRegisters
        { pageTable := [], numPages := 4 }).machine.registers[stockLayout.PCReg]? = some 0 ∧
    (AddrSpace.InitRegisters stockConfig stockLayout staleRegisters
        { pageTable := [], numPages := 4 }).machine.registers[stockLayout.NextPCReg]? = some 4 ∧
    (∀ r, r < stockLayout.NumTotalRegs → r ≠ stockLayout.StackReg → r ≠ stockLayout.PCReg →
      r ≠ stockLayout.NextPCReg →
      (AddrSpace.InitRegisters stockConfig stockLayout staleRegisters
        { pageTable := [], numPages := 4 }).machine.registers[r]? = some 0) :=
  InitRegisters_registers stockConfig stockLayout staleRegisters
    { pageTable := [], numPages := 4 } (by decide) (by decide) (by decide)

/-- C12, counterexample. For `numPages = 33554433` and `PageSize = 128` the
product `numPages * PageSize` is `2^32 + 128`; in 32-bit arithmetic the value
written to the stack register is 112, not `numPages * PageSize - 16`, which is
4294967408. -/
theorem InitRegisters_stack_wraps :
    (AddrSpace.InitRegisters stockConfig stockLayout staleRegisters
        { pageTable := [], numPages := 33554433 }).machine.registers[stockLayout.StackReg]?
      = some 112 ∧
    ((33554433 : Nat) : Int) * stockConfig.PageSize - 16 = 4294967408 ∧
    (AddrSpace.InitRegisters stockConfig stockLayout staleRegisters
        { pageTable := [], numPages := 33554433 }).machine.registers[stockLayout.StackReg]?
      ≠ some (((33554433 : Nat) : Int) * stockConfig.PageSize - 16) := by
  decide

/-! ## Swap slots at destruction -/

/-- C13, the code at the failing input. With frame 7 the only free frame, `Load`
of the two-page program puts page 0 on frame 7 and page 1 in swap slot 0, whose
bit it sets.  The destructor then indexes the static array with the
`physicalPage = -1` of page 1; run over the valid entry alone it completes and
leaves the machine, swap bitmap included, as it was: bit 0 of the swap bitmap
is still set. -/
theorem dtor_leaves_swap_bitmap :
    ((Load stockConfig (fun _ => some ⟨twoPageHeader⟩) "prog"
        (oneFrameState stockConfig) (AddrSpace.ctor stockConfig 0)).result?.map
          (fun r => (r.1, r.2.2.pageTable.take 2, r.2.1.machine.usedvirPage.take 2)))
      = some (true,
          [({ unmappedEntry 0 with physicalPage := 7, valid := true } : TranslationEntry),
           ({ unmappedEntry 1 with virtualPage := 0 } : TranslationEntry)],
          [true, false]) ∧
    ((Load stockConfig (fun _ => some ⟨twoPageHeader⟩) "prog"
        (oneFrameState stockConfig) (AddrSpace.ctor stockConfig 0)).result?.map
          (fun r => decide (AddrSpace.dtor stockConfig r.2.1 r.2.2 = .undefined)))
      = some true ∧
    ((Load stockConfig (fun _ => some ⟨twoPageHeader⟩) "prog"
        (oneFrameState stockConfig) (AddrSpace.ctor stockConfig 0)).result?.map
          (fun r =>
            (AddrSpace.dtor stockConfig r.2.1
              { pageTable := r.2.2.pageTable.take 1, numPages := 1 }).result?.map
                (fun r2 => (decide (r2.1.machine = r.2.1.machine),
                  r2.1.machine.usedvirPage.take 2))))
      = some (some (true, [true, false])) := by
  decide

/-! ## Failure of `Load` -/

/-- C14. For a header with a valid magic whose `numPages` exceeds `NumPhysPages`
while no swap device is configured, `Load` returns `FALSE`; the state, with both
bitmaps, and the page table of the address space are as before the call. -/
theorem Load_insufficient_memory (cfg : Config) (fileSystem : String → Option OpenFile)
    (fileName : String) (st : State) (space : AddrSpace) (executable : OpenFile)
    (hopen : fileSystem fileName = some executable)
    (hmagic : (repairHeader cfg executable.noffH).noffMagic = cfg.NOFFMAGIC)
    (hpages : computeNumPages cfg (repairHeader cfg executable.noffH) > cfg.NumPhysPages)
    (hdisk : st.virtualMemoryDisk = false) :
    ∃ st1 space1, Load cfg fileSystem fileName st space = .ok (false, st1, space1) ∧
      st1 = st ∧ st1.machine.usedPhyPage = st.machine.usedPhyPage ∧
      st1.machine.usedvirPage = st.machine.usedvirPage ∧
      space1.pageTable = space.pageTable := by
  refine ⟨st, { space with numPages := computeNumPages cfg (repairHeader cfg executable.noffH) },
    ?_, rfl, rfl, rfl, rfl⟩
  unfold Load
  simp only [hopen]
  rw [if_neg (not_not.mpr hmagic), if_pos ⟨hpages, hdisk⟩]
  cases st
  simp

/-- Witness of `Load_insufficient_memory`: 40 pages are needed, 32 exist. -/
theorem Load_insufficient_memory_witness :
    ∃ st1 space1,
      Load stockConfig (fun _ => some ⟨largeHeader⟩) "prog"
        (framesTaken stockConfig [0, 1]) otherSpace = .ok (false, st1, space1) ∧
      st1 = framesTaken stockConfig [0, 1] ∧
      st1.machine.usedPhyPage = (framesTaken stockConfig [0, 1]).machine.usedPhyPage ∧
      st1.machine.usedvirPage = (framesTaken stockConfig [0, 1]).machine.usedvirPage ∧
      space1.pageTable = otherSpace.pageTable :=
  Load_insufficient_memory stockConfig (fun _ => some ⟨largeHeader⟩) "prog"
    (framesTaken stockConfig [0, 1]) otherSpace ⟨largeHeader⟩ rfl (by decide) (by decide)
    (by decide)

/-- A `Load` that returns `FALSE` has left the machine as it was. -/
theorem Load_ok_false (cfg : Config) (fileSystem : String → Option OpenFile)
    (fileName : String) (st st1 : State) (space space1 : AddrSpace)
    (h : Load cfg fileSystem fileName st space = .ok (false, st1, space1)) :
    st1.machine = st.machine ∧ space1.pageTable = space.pageTable := by
  unfold Load at h
  cases hopen : fileSystem fileName with
  | none =>
    simp only [hopen, Outcome.ok.injEq, Prod.mk.injEq, true_and] at h
    obtain ⟨h1, h2⟩ := h
    subst h1 h2
    exact ⟨rfl, rfl⟩
  | some executable =>
    simp only [hopen] at h
    by_cases hm : (repairHeader cfg executable.noffH).noffMagic ≠ cfg.NOFFMAGIC
    · rw [if_pos hm] at h
      cases h
    · rw [if_neg hm] at h
      split at h
      · simp only [Outcome.ok.injEq, Prod.mk.injEq, true_and] at h
        obtain ⟨h1, h2⟩ := h
        subst h1 h2
        exact ⟨rfl, rfl⟩
      · split at h
        · simp at h
        · cases h
        · cases h

/-- C15. When `Load` returns `FALSE`, `Execute` returns: it does not reach
`kernel->machine->Run()`, and the machine, with its registers, its page table
and its page-table size, is as it was before the call. -/
theorem Execute_failed_load (cfg : Config) (layout : RegisterLayout)
    (fileSystem : String → Option OpenFile) (fileName : String) (st st1 : State)
    (space space1 : AddrSpace)
    (hload : Load cfg fileSystem fileName st space = .ok (false, st1, space1)) :
    AddrSpace.Execute cfg layout fileSystem fileName st space = .returned st1 space1 ∧
    st1.machine.registers = st.machine.registers ∧
    st1.machine.pageTable = st.machine.pageTable ∧
    st1.machine.pageTableSize = st.machine.pageTableSize ∧
    st1.machine = st.machine := by
  have hm := (Load_ok_false _ _ _ _ _ _ _ hload).1
  refine ⟨?_, by rw [hm], by rw [hm], by rw [hm], hm⟩
  unfold AddrSpace.Execute
  rw [hload]

/-- Witness of `Execute_failed_load`: the program needs 40 pages, 32 exist and
there is no swap device. -/
theorem Execute_failed_load_witness :
    AddrSpace.Execute stockConfig stockLayout (fun _ => some ⟨largeHeader⟩) "prog"
        staleRegisters (AddrSpace.ctor stockConfig 0)
      = .returned staleRegisters { AddrSpace.ctor stockConfig 0 with numPages := 40 } ∧
    staleRegisters.machine.registers = staleRegisters.machine.registers ∧
    staleRegisters.machine.pageTable = staleRegisters.machine.pageTable ∧
    staleRegisters.machine.pageTableSize = staleRegisters.machine.pageTableSize ∧
    staleRegisters.machine = staleRegisters.machine :=
  Execute_failed_load stockConfig stockLayout (fun _ => some ⟨largeHeader⟩) "prog"
    staleRegisters staleRegisters (AddrSpace.ctor stockConfig 0)
    { AddrSpace.ctor stockConfig 0 with numPages := 40 } (by decide)

/-! ## Releasing a frame twice -/

/-- C18. After `RestoreState` the page table and page-table size of the machine
are those of the address space, which is unchanged; after `SaveState` the page
table and `numPages` of the address space are those of the machine, and the
state is unchanged; `RestoreState` followed by `SaveState` gives back the
address space. -/
theorem SaveState_RestoreState (st : State) (space : AddrSpace) :
    ((AddrSpace.RestoreState st space).1.machine.pageTable = space.pageTable ∧
      (AddrSpace.RestoreState st space).1.machine.pageTableSize = space.numPages ∧
      (AddrSpace.RestoreState st space).2 = space) ∧
    ((AddrSpace.SaveState st space).2.pageTable = st.machine.pageTable ∧
      (AddrSpace.SaveState st space).2.numPages = st.machine.pageTableSize ∧
      (AddrSpace.SaveState st space).1 = st) ∧
    (AddrSpace.SaveState (AddrSpace.RestoreState st space).1
      (AddrSpace.RestoreState st space).2).2 = space :=
  ⟨⟨rfl, rfl, rfl⟩, ⟨rfl, rfl, rfl⟩, by cases space; rfl⟩

/-! ## Pages that no chunk targets -/

theorem LoadSegmentLoop_untouched (cfg : Config) (inFileAddr segmentSize startPage : Int)
    (fuel : Nat) : ∀ (k : Nat) (pageOffset : Int) (st st1 : State)
      (pageTable pageTable1 : List TranslationEntry),
      LoadSegmentLoop cfg inFileAddr segmentSize startPage fuel ((k : Int) * cfg.PageSize)
        pageOffset st pageTable = .ok (st1, pageTable1) →
      ∀ idx : Nat,
        (∀ k1 : Nat, k ≤ k1 → (k1 : Int) * cfg.PageSize < segmentSize →
          (idx : Int) ≠ startPage + k1) →
        pageTable1[idx]? = pageTable[idx]? := by
  induction fuel with
  | zero =>
    intro k pageOffset st st1 pageTable pageTable1 h idx _
    simp only [LoadSegmentLoop, Outcome.ok.injEq, Prod.mk.injEq] at h
    rw [h.2]
  | succ fuel ih =>
    intro k pageOffset st st1 pageTable pageTable1 h idx hne
    have hP : (0 : Int) < cfg.PageSize := by exact_mod_cast cfg.PageSize_pos
    unfold LoadSegmentLoop at h
    by_cases hi : (k : Int) * cfg.PageSize < segmentSize
    · rw [if_pos hi] at h
      cases hb : LoadSegmentBody cfg inFileAddr segmentSize startPage
          ((k : Int) * cfg.PageSize) pageOffset st pageTable with
      | abort s => simp [hb] at h
      | undefined => simp [hb] at h
      | ok r =>
        obtain ⟨st2, pageTable2⟩ := r
        simp only [hb] at h
        have hnext : (k : Int) * cfg.PageSize + cfg.PageSize
            = ((k + 1 : Nat) : Int) * cfg.PageSize := by
          push_cast
          ring
        rw [hnext] at h
        obtain ⟨hv, e, -, -, -, -, hcase⟩ := LoadSegmentBody_ok _ _ _ _ _ _ _ _ _ _ hb
        rw [Int.mul_tdiv_cancel _ (ne_of_gt hP)] at hv hcase
        have hk := hne k (Nat.le_refl k) hi
        rw [ih (k + 1) 0 st2 st1 pageTable2 pageTable1 h idx
          (fun k1 hk1 hlt => hne k1 (by omega) hlt)]
        rcases hcase with ⟨f, -, -, -, hpt, -⟩ | ⟨-, s, -, -, -, -, hpt, -⟩
        · rw [hpt, List.getElem?_set_ne (by omega)]
        · rw [hpt, List.getElem?_set_ne (by omega)]
    · rw [if_neg hi] at h
      simp only [Outcome.ok.injEq, Prod.mk.injEq] at h
      rw [h.2]

theorem LoadSegment_untouched (cfg : Config) (seg : Segment) (st st1 : State)
    (pageTable pageTable1 : List TranslationEntry)
    (h : LoadSegment cfg (toInt32 seg.inFileAddr) (toInt32 seg.size) (toInt32 seg.virtualAddr)
      st pageTable = .ok (st1, pageTable1))
    (idx : Nat) (hne : notTargetOf cfg seg idx) : pageTable1[idx]? = pageTable[idx]? := by
  have hP : (0 : Int) < cfg.PageSize := by exact_mod_cast cfg.PageSize_pos
  unfold LoadSegment at h
  have h0 : (0 : Int) = ((0 : Nat) : Int) * cfg.PageSize := by simp
  rw [h0] at h
  apply LoadSegmentLoop_untouched cfg _ _ _ _ 0 _ st st1 pageTable pageTable1 h idx
  intro k1 _ hlt
  have h1 : (k1 : Int) ≤ (k1 : Int) * cfg.PageSize :=
    le_mul_of_one_le_right (Int.ofNat_nonneg k1) (by omega)
  exact hne k1 (by omega) hlt

/-- C17. After a `Load` that returns `TRUE`, an entry whose index is the target
of no chunk of the code segment and of no chunk of the initialized-data segment
is as `Load` initialised it: not valid, not read-only, not used, not dirty, with
`physicalPage = -1`. -/
theorem Load_unloaded_unmapped (cfg : Config) (fileSystem : String → Option OpenFile)
    (fileName : String) (executable : OpenFile) (st st1 : State) (space space1 : AddrSpace)
    (hopen : fileSystem fileName = some executable)
    (hload : Load cfg fileSystem fileName st space = .ok (true, st1, space1))
    (i : Nat) (e : TranslationEntry) (hentry : space1.pageTable[i]? = some e)
    (hcode : notTargetOf cfg (repairHeader cfg executable.noffH).code i)
    (hdata : notTargetOf cfg (repairHeader cfg executable.noffH).initData i) :
    e.valid = false ∧ e.readOnly = false ∧ e.use = false ∧ e.dirty = false ∧
      e.physicalPage = -1 ∧ e = unmappedEntry i := by
  obtain ⟨executable1, st2, pageTable1, hopen1, -, hsegs, -, hspace1⟩ :=
    Load_ok_true _ _ _ _ _ _ _ hload
  rw [hopen] at hopen1
  cases hopen1
  subst hspace1
  have hsame : pageTable1[i]?
      = ((List.range (computeNumPages cfg (repairHeader cfg executable.noffH))).map
          unmappedEntry)[i]? := by
    unfold loadSegments at hsegs
    by_cases hc : toInt32 (repairHeader cfg executable.noffH).code.size > 0
    · rw [if_pos hc] at hsegs
      cases hcodeRun : LoadSegment cfg
          (toInt32 (repairHeader cfg executable.noffH).code.inFileAddr)
          (toInt32 (repairHeader cfg executable.noffH).code.size)
          (toInt32 (repairHeader cfg executable.noffH).code.virtualAddr)
          { st with openFiles := st.openFiles + 1 }
          ((List.range (computeNumPages cfg (repairHeader cfg executable.noffH))).map
            unmappedEntry) with
      | abort s => simp [hcodeRun] at hsegs
      | undefined => simp [hcodeRun] at hsegs
      | ok r =>
        obtain ⟨st3, pageTable3⟩ := r
        simp only [hcodeRun] at hsegs
        have h3 := LoadSegment_untouched cfg _ _ _ _ _ hcodeRun i hcode
        by_cases hd : toInt32 (repairHeader cfg executable.noffH).initData.size > 0
        · rw [if_pos hd] at hsegs
          rw [LoadSegment_untouched cfg _ _ _ _ _ hsegs i hdata, h3]
        · rw [if_neg hd] at hsegs
          simp only [Outcome.ok.injEq, Prod.mk.injEq] at hsegs
          rw [← hsegs.2, h3]
    · rw [if_neg hc] at hsegs
      simp only at hsegs
      by_cases hd : toInt32 (repairHeader cfg executable.noffH).initData.size > 0
      · rw [if_pos hd] at hsegs
        exact LoadSegment_untouched cfg _ _ _ _ _ hsegs i hdata
      · rw [if_neg hd] at hsegs
        simp only [Outcome.ok.injEq, Prod.mk.injEq] at hsegs
        rw [← hsegs.2]
  have he : e = unmappedEntry i := by
    apply unmappedTable_getElem? (computeNumPages cfg (repairHeader cfg executable.noffH))
    rw [← hsame]
    exact hentry
  subst he
  exact ⟨rfl, rfl, rfl, rfl, rfl, rfl⟩

set_option maxRecDepth 4096 in
/-- Witness of `Load_unloaded_unmapped`: page 5 of the two-page program, a page
of the stack. -/
theorem Load_unloaded_unmapped_witness :
    (unmappedEntry 5).valid = false ∧ (unmappedEntry 5).readOnly = false ∧
      (unmappedEntry 5).use = false ∧ (unmappedEntry 5).dirty = false ∧
      (unmappedEntry 5).physicalPage = -1 ∧ unmappedEntry 5 = unmappedEntry 5 :=
  Load_unloaded_unmapped stockConfig (fun _ => some ⟨twoPageHeader⟩) "prog" ⟨twoPageHeader⟩
    (freshState stockConfig false) loadedFresh.2.1 (AddrSpace.ctor stockConfig 0)
    loadedFresh.2.2 rfl (by decide) 5 (unmappedEntry 5) (by decide) (by decide) (by decide)

/-! ## Bounds of the page-table index -/

/-- A pass ends in undefined behaviour only by indexing the page table outside
its bounds or by writing a sector with no swap device. -/
theorem LoadSegmentBody_undefined (cfg : Config)
    (inFileAddr segmentSize startPage i pageOffset : Int)
    (st : State) (pageTable : List TranslationEntry)
    (h : LoadSegmentBody cfg inFileAddr segmentSize startPage i pageOffset st pageTable
      = .undefined) :
    (¬ 0 ≤ startPage + Int.tdiv i cfg.PageSize ∨
      pageTable[(startPage + Int.tdiv i cfg.PageSize).toNat]? = none) ∨
    (firstClear st.machine.usedPhyPage cfg.NumPhysPages 0 = none ∧
      st.virtualMemoryDisk = false) := by
  unfold LoadSegmentBody at h
  by_cases hv : 0 ≤ startPage + Int.tdiv i cfg.PageSize
  · cases he : pageTable[(startPage + Int.tdiv i cfg.PageSize).toNat]? with
    | none => exact Or.inl (Or.inr rfl)
    | some e =>
      cases hf : firstClear st.machine.usedPhyPage cfg.NumPhysPages 0 with
      | some freePage => simp [hf, hv, he] at h
      | none =>
        cases hd : st.virtualMemoryDisk with
        | false => exact Or.inr ⟨rfl, rfl⟩
        | true =>
          simp only [hf, FindSwapPage, State.log] at h
          cases hs : firstClear st.machine.usedvirPage cfg.NumPhysPages 0 with
          | none => simp [hs] at h
          | some swapPage => simp [hs, State.setUsedvirPage, hd, hv, he] at h
  · exact Or.inl (Or.inl hv)

/-- The page targeted by chunk `k` lies in the page table when the segment lies
in the address space. -/
theorem chunk_page_in_bounds (cfg : Config) (segmentSize virtualAddr : Int) (numPages k : Nat)
    (hva : 0 ≤ virtualAddr)
    (hfit : virtualAddr + segmentSize ≤ (numPages : Int) * cfg.PageSize)
    (hk : (k : Int) * cfg.PageSize < segmentSize) :
    0 ≤ Int.tdiv virtualAddr cfg.PageSize + Int.tdiv ((k : Int) * cfg.PageSize) cfg.PageSize ∧
    Int.tdiv virtualAddr cfg.PageSize + Int.tdiv ((k : Int) * cfg.PageSize) cfg.PageSize
      < numPages := by
  have hP : (0 : Int) < cfg.PageSize := by exact_mod_cast cfg.PageSize_pos
  rw [Int.mul_tdiv_cancel _ (ne_of_gt hP), Int.tdiv_eq_ediv hva (le_of_lt hP)]
  have h1 : 0 ≤ virtualAddr / (cfg.PageSize : Int) := Int.ediv_nonneg hva (le_of_lt hP)
  have h2 : virtualAddr / (cfg.PageSize : Int) * cfg.PageSize ≤ virtualAddr :=
    Int.ediv_mul_le _ (ne_of_gt hP)
  refine ⟨by omega, ?_⟩
  have h3 : (virtualAddr / (cfg.PageSize : Int) + k) * cfg.PageSize
      < (numPages : Int) * cfg.PageSize := by
    have : (virtualAddr / (cfg.PageSize : Int) + k) * cfg.PageSize
        = virtualAddr / (cfg.PageSize : Int) * cfg.PageSize + (k : Int) * cfg.PageSize := by
      ring
    omega
  exact lt_of_mul_lt_mul_right h3 (le_of_lt hP)

theorem LoadSegmentLoop_in_bounds (cfg : Config) (inFileAddr segmentSize virtualAddr : Int)
    (numPages : Nat) (hva : 0 ≤ virtualAddr)
    (hfit : virtualAddr + segmentSize ≤ (numPages : Int) * cfg.PageSize)
    (fuel : Nat) : ∀ (k : Nat) (pageOffset : Int) (st : State)
      (pageTable : List TranslationEntry), pageTable.length = numPages →
      LoadSegmentLoop cfg inFileAddr segmentSize (Int.tdiv virtualAddr cfg.PageSize) fuel
        ((k : Int) * cfg.PageSize) pageOffset st pageTable = .undefined →
      st.virtualMemoryDisk = false := by
  induction fuel with
  | zero =>
    intro k pageOffset st pageTable _ h
    simp [LoadSegmentLoop] at h
  | succ fuel ih =>
    intro k pageOffset st pageTable hlen h
    have hP : (0 : Int) < cfg.PageSize := by exact_mod_cast cfg.PageSize_pos
    unfold LoadSegmentLoop at h
    by_cases hi : (k : Int) * cfg.PageSize < segmentSize
    · rw [if_pos hi] at h
      obtain ⟨hb0, hb1⟩ := chunk_page_in_bounds cfg segmentSize virtualAddr numPages k hva hfit hi
      cases hb : LoadSegmentBody cfg inFileAddr segmentSize
          (Int.tdiv virtualAddr cfg.PageSize) ((k : Int) * cfg.PageSize) pageOffset st
          pageTable with
      | abort s => simp [hb] at h
      | undefined =>
        rcases LoadSegmentBody_undefined _ _ _ _ _ _ _ _ hb with (hneg | hnone) | ⟨-, hd⟩
        · exact absurd hb0 hneg
        · rw [List.getElem?_eq_none_iff] at hnone
          omega
        · exact hd
      | ok r =>
        obtain ⟨st2, pageTable2⟩ := r
        simp only [hb] at h
        have hnext : (k : Int) * cfg.PageSize + cfg.PageSize
            = ((k + 1 : Nat) : Int) * cfg.PageSize := by
          push_cast
          ring
        rw [hnext] at h
        obtain ⟨-, e, -, -, hdisk, -, hcase⟩ := LoadSegmentBody_ok _ _ _ _ _ _ _ _ _ _ hb
        have hlen2 : pageTable2.length = numPages := by
          rcases hcase with ⟨f, -, -, -, hpt, -⟩ | ⟨-, s, -, -, -, -, hpt, -⟩
          · rw [hpt, List.length_set, hlen]
          · rw [hpt, List.length_set, hlen]
        rw [← hdisk]
        exact ih (k + 1) 0 st2 pageTable2 hlen2 h
    · rw [if_neg hi] at h
      cases h

/-- C19. For a segment with `segmentSize > 0`, `virtualAddr >= 0` and
`virtualAddr + segmentSize <= numPages * PageSize`, the index
`startPage + i / PageSize` of every pass of `LoadSegment` lies in
`[0, numPages)`; on a page table of `numPages` entries `LoadSegment` therefore
never indexes the table out of bounds: a run can end in undefined behaviour
only through the absent swap device. -/
theorem LoadSegment_writes_in_bounds (cfg : Config) (inFileAddr segmentSize virtualAddr : Int)
    (numPages : Nat) (st : State) (pageTable : List TranslationEntry)
    (_hsize : 0 < segmentSize) (hva : 0 ≤ virtualAddr)
    (hfit : virtualAddr + segmentSize ≤ (numPages : Int) * cfg.PageSize)
    (hlen : pageTable.length = numPages) :
    (∀ k : Nat, (k : Int) * cfg.PageSize < segmentSize →
      0 ≤ Int.tdiv virtualAddr cfg.PageSize
          + Int.tdiv ((k : Int) * cfg.PageSize) cfg.PageSize ∧
      Int.tdiv virtualAddr cfg.PageSize + Int.tdiv ((k : Int) * cfg.PageSize) cfg.PageSize
        < numPages) ∧
    (LoadSegment cfg inFileAddr segmentSize virtualAddr st pageTable = .undefined →
      st.virtualMemoryDisk = false) ∧
    (st.virtualMemoryDisk = true →
      LoadSegment cfg inFileAddr segmentSize virtualAddr st pageTable ≠ .undefined) := by
  have hmain : LoadSegment cfg inFileAddr segmentSize virtualAddr st pageTable = .undefined →
      st.virtualMemoryDisk = false := by
    intro h
    unfold LoadSegment at h
    have h0 : (0 : Int) = ((0 : Nat) : Int) * cfg.PageSize := by simp
    rw [h0] at h
    exact LoadSegmentLoop_in_bounds cfg inFileAddr segmentSize virtualAddr numPages hva hfit _ 0
      _ st pageTable hlen h
  refine ⟨fun k hk => chunk_page_in_bounds cfg segmentSize virtualAddr numPages k hva hfit hk,
    hmain, ?_⟩
  intro hd hu
  rw [hmain hu] at hd
  cases hd

/-- Witness of `LoadSegment_writes_in_bounds`: 300 bytes at address 64 in an
address space of 10 pages. -/
theorem LoadSegment_writes_in_bounds_witness :
    (∀ k : Nat, (k : Int) * stockConfig.PageSize < 300 →
      0 ≤ Int.tdiv 64 stockConfig.PageSize
          + Int.tdiv ((k : Int) * stockConfig.PageSize) stockConfig.PageSize ∧
      Int.tdiv 64 stockConfig.PageSize
          + Int.tdiv ((k : Int) * stockConfig.PageSize) stockConfig.PageSize
        < (10 : Nat)) ∧
    (LoadSegment stockConfig 40 300 64 (oneFrameState stockConfig)
        ((List.range 10).map unmappedEntry) = .undefined →
      (oneFrameState stockConfig).virtualMemoryDisk = false) ∧
    ((oneFrameState stockConfig).virtualMemoryDisk = true →
      LoadSegment stockConfig 40 300 64 (oneFrameState stockConfig)
        ((List.range 10).map unmappedEntry) ≠ .undefined) :=
  LoadSegment_writes_in_bounds stockConfig 40 300 64 10 (oneFrameState stockConfig)
    ((List.range 10).map unmappedEntry) (by decide) (by decide) (by decide) (by decide)

/-! ## The swap branch without a swap device -/

set_option maxRecDepth 16384 in
/-- C20, the code at the failing input. No swap device is configured and all 32
frames are marked.  `Load` of the two-page program computes 10 pages, which
passes the memory check; `LoadSegment` finds no free frame, takes the swap
branch, calls `FindSwapPage`, which returns slot 0, and reaches `WriteSector`
through the null `virtualMemoryDisk`.  That state of the bitmap is the one
reached from the fresh machine by 16 loads of the two-page program, and the
17th load ends the same way. -/
theorem Load_swap_branch_without_disk :
    (noFrameNoDisk stockConfig).virtualMemoryDisk = false ∧
    computeNumPages stockConfig (repairHeader stockConfig twoPageHeader) = 10 ∧
    computeNumPages stockConfig (repairHeader stockConfig twoPageHeader)
      ≤ stockConfig.NumPhysPages ∧
    (allocatePhysPage stockConfig (noFrameNoDisk stockConfig)).1 = none ∧
    FindSwapPage stockConfig (noFrameNoDisk stockConfig) = some 0 ∧
    Load stockConfig (fun _ => some ⟨twoPageHeader⟩) "prog" (noFrameNoDisk stockConfig)
      (AddrSpace.ctor stockConfig 0) = .undefined ∧
    (loadTwoPageTimes 16 (freshState stockConfig false)).machine.usedPhyPage
      = (noFrameNoDisk stockConfig).machine.usedPhyPage ∧
    Load stockConfig (fun _ => some ⟨twoPageHeader⟩) "prog"
      (loadTwoPageTimes 16 (freshState stockConfig false))
      (AddrSpace.ctor stockConfig 0) = .undefined := by
  decide

end NachOS
